import Mathlib

/-!
The package gosift: scale-space pyramid, difference of Gaussians, extremum test.

A shallow embedding of the Go package `gosift` (files `sift.go`, `utils.go`,
`sift_image.go`, and the kernel of `interpolation/bicubic.go`) and theorems
about it.

Conventions of the embedding

* Go `int` is `Int`, and arithmetic on it is exact: no wrap-around at 64 bits
  is modelled.  An index that a slice accepts is bounded by the length of the
  slice.  The products `4*w` and `4*w*h` of `newSiftImage` are not bounded in
  this way and Go computes them in 64 bits: the embedding describes
  `newSiftImage(r)` for the rectangles `r` with `NoIntOverflow r`, and the
  theorem about `newSiftImage` on its own carries this hypothesis.
* Go `uint8` is a `Nat` below 256; arithmetic on it is reduced `% 256`
  explicitly.
* A Go slice is a `List`; an index outside `[0, len)` makes the operation
  return `none`, which stands for the run-time failure of the Go program.
* `float64` values are rationals (`ℚ`).  The values that occur in the
  detector are integer samples and sums of a few of them divided by 2 or 4,
  which `float64` represents exactly.
* Functions of other libraries (`resize.GaussianSmooth`, `resize.Resize`,
  `math.Pow`, `math.Sqrt`, `math.Log`, the conversion of a `float64` to `int`)
  are parameters of the definitions using them.  The methods of `image.Point`
  and `image.Rectangle` follow the Go standard library.
* `scale_space_extrema` returns nothing in Go; its embedding returns the record
  of the invocations of `is_extremum` it made.
-/

namespace GoSift

/-! ## Slices and loops -/

/-- Read `xs[i]` of a Go slice; `none` when `i` is out of range. -/
def sliceGet {α : Type} (xs : List α) (i : Int) : Option α :=
  if 0 ≤ i then xs[i.toNat]? else none

/-- Write `xs[i] = v` of a Go slice; `none` when `i` is out of range. -/
def sliceSet {α : Type} (xs : List α) (i : Int) (v : α) : Option (List α) :=
  if 0 ≤ i ∧ i < xs.length then some (xs.set i.toNat v) else none

/-- Go `make([]T, n)`: a slice of `n` zero values; fails when `n` is negative. -/
def make {α : Type} (n : Int) (zero : α) : Option (List α) :=
  if n < 0 then none else some (List.replicate n.toNat zero)

/-- Read `pyr[r][i]` of a slice of slices. -/
def get2 {α : Type} (pyr : List (List α)) (r i : Int) : Option α := do
  let row ← sliceGet pyr r
  sliceGet row i

/-- Write `pyr[r][i] = v` of a slice of slices. -/
def set2 {α : Type} (pyr : List (List α)) (r i : Int) (v : α) : Option (List (List α)) := do
  let row ← sliceGet pyr r
  let row1 ← sliceSet row i v
  sliceSet pyr r row1

/-- Go loop `for v := lo; v < hi; v++ { body }` over a state; the body may fail. -/
def forLoop {σ : Type} (lo hi : Int) (body : Int → σ → Option σ) (s : σ) : Option σ :=
  (List.range (hi - lo).toNat).foldlM (fun st (n : Nat) => body (lo + (n : Int)) st) s

/-- All the values of a list of optional values, in order; `none` when one of
them is missing. -/
def allSome {α : Type} : List (Option α) → Option (List α)
  | [] => some []
  | none :: _ => none
  | some a :: rest => (allSome rest).map fun l => a :: l

/-! ## Geometry (`image.Point`, `image.Rectangle`) -/

/-- Go `image.Point`. -/
structure Point where
  X : Int
  Y : Int
deriving DecidableEq, Repr

/-- Go `image.Rectangle`. -/
structure Rectangle where
  Min : Point
  Max : Point
deriving DecidableEq, Repr

/-- Width `r.Dx()`. -/
def Rectangle.Dx (r : Rectangle) : Int := r.Max.X - r.Min.X

/-- Height `r.Dy()`. -/
def Rectangle.Dy (r : Rectangle) : Int := r.Max.Y - r.Min.Y

/-- Go `image.Rect(0, 0, w, h)` for non-negative `w`, `h`. -/
def rect0 (w h : Int) : Rectangle := ⟨⟨0, 0⟩, ⟨w, h⟩⟩

/-! ## Images -/

/-- An `image.Image` seen through `color.RGBAModel`: its bounds and, for a point
`(x, y)` and a channel `ch` in `0..3`, the 8-bit sample. -/
structure Image where
  Bounds : Rectangle
  At : Int → Int → Nat → Nat

/-- Go `image.RGBA`: 8-bit samples. -/
structure RGBA where
  Pix : List Nat
  Stride : Int
  Rect : Rectangle
deriving DecidableEq, Repr

/-- The type `SiftImage` of `sift_image.go`: samples are Go `int`. -/
structure SiftImage where
  Pix : List Int
  Stride : Int
  Rect : Rectangle
deriving DecidableEq, Repr

/-- Method `(p *SiftImage) PixOffset(x, y)`. -/
def SiftImage.PixOffset (p : SiftImage) (x y : Int) : Int :=
  (y * p.Stride) + (x * 4)

/-- Method `(p *SiftImage) Bounds()`. -/
def SiftImage.Bounds (p : SiftImage) : Rectangle := p.Rect

/-- The value `x` lies in the range of Go's 64-bit `int`. -/
def InIntRange (x : Int) : Prop := -(2 ^ 63) ≤ x ∧ x < 2 ^ 63

/-- None of the operations `r.Dx()`, `r.Dy()`, `4*w` and `4*w*h` of
`newSiftImage(r)` leaves the range of `int`. -/
def NoIntOverflow (r : Rectangle) : Prop :=
  InIntRange r.Dx ∧ InIntRange r.Dy ∧ InIntRange (4 * r.Dx) ∧ InIntRange (4 * r.Dx * r.Dy)

/-- Function `newSiftImage`: `make([]int, 4*w*h)` fails on a negative length.
The products `4*w` and `4*w*h` are exact here, while Go computes them in 64-bit
`int`: this is `newSiftImage(r)` for the rectangles with `NoIntOverflow r`.
Where a product overflows Go wraps it (for `image.Rect(0, 0, 2^31, 2^31)` it
returns an empty `Pix` with `Stride = 2^33`), which is not modelled.  Inside
`SubstractImage` the call follows `image.NewRGBA` on the same bounds, which has
allocated `4*w*h` bytes by then. -/
def newSiftImage (r : Rectangle) : Option SiftImage := do
  let w := r.Dx
  let h := r.Dy
  let buf ← make (4 * w * h) (0 : Int)
  some { Pix := buf, Stride := 4 * w, Rect := r }

/-- Function `ConvertImageToRGBA`: `image.NewRGBA(bounds)` followed by
`draw.Draw(destImg, bounds, srcImg, bounds.Min, draw.Src)`.  The result has
`Stride = 4 * Dx`, and the sample of channel `ch` of the pixel `(x, y)` of the
bounds is stored at `(y - Min.Y) * Stride + (x - Min.X) * 4 + ch`. -/
def ConvertImageToRGBA (srcImg : Image) : Option RGBA :=
  let bounds := srcImg.Bounds
  if bounds.Dx < 0 ∨ bounds.Dy < 0 then none
  else
    let w := bounds.Dx.toNat
    let h := bounds.Dy.toNat
    some
      { Pix := (List.range (4 * w * h)).map fun n =>
          srcImg.At (bounds.Min.X + (((n / 4) % w : Nat) : Int))
            (bounds.Min.Y + ((n / (4 * w) : Nat) : Int)) (n % 4) % 256
        Stride := 4 * bounds.Dx
        Rect := bounds }

/-- Subtraction of two `uint8` values, as Go computes it: modulo 256. -/
def uint8Sub (a b : Nat) : Nat := (a % 256 + 256 - b % 256) % 256

/-- One assignment of the loop body of `SubstractImage`:
`destImg.Pix[idx] = int(source1.Pix[idx] - source2.Pix[idx])`. -/
def subSample (source1 source2 : RGBA) (idx : Int) (pix : List Int) : Option (List Int) := do
  let a ← sliceGet source1.Pix idx
  let b ← sliceGet source2.Pix idx
  sliceSet pix idx ((uint8Sub a b : Nat) : Int)

/-- Function `SubstractImage` of `utils.go`. -/
def SubstractImage (src1 src2 : Image) : Option SiftImage := do
  let bounds := src1.Bounds
  let source1 ← ConvertImageToRGBA src1
  let source2 ← ConvertImageToRGBA src2
  let destImg ← newSiftImage bounds
  let stride := source1.Stride
  let pix ← forLoop 0 bounds.Dy (fun y pix0 =>
    forLoop 0 bounds.Dx (fun x pix1 => do
      let p0 ← subSample source1 source2 (y * stride + x * 4) pix1
      let p1 ← subSample source1 source2 (y * stride + x * 4 + 1) p0
      let p2 ← subSample source1 source2 (y * stride + x * 4 + 2) p1
      subSample source1 source2 (y * stride + x * 4 + 3) p2) pix0) destImg.Pix
  some { destImg with Pix := pix }

/-- The four assignments of the loop body of `SubstractImage` (lines 41 to 44). -/
def subPixel (source1 source2 : RGBA) (stride y x : Int) (pix1 : List Int) :
    Option (List Int) := do
  let p0 ← subSample source1 source2 (y * stride + x * 4) pix1
  let p1 ← subSample source1 source2 (y * stride + x * 4 + 1) p0
  let p2 ← subSample source1 source2 (y * stride + x * 4 + 2) p1
  subSample source1 source2 (y * stride + x * 4 + 3) p2

/-- The sample that `ConvertImageToRGBA` stores at index `n` of `Pix`. -/
def rgbaSample (srcImg : Image) (n : Nat) : Nat :=
  srcImg.At (srcImg.Bounds.Min.X + (((n / 4) % srcImg.Bounds.Dx.toNat : Nat) : Int))
    (srcImg.Bounds.Min.Y + ((n / (4 * srcImg.Bounds.Dx.toNat) : Nat) : Int)) (n % 4) % 256

/-- Function `pixval32f(srcImg, x, y)` of `utils.go`:
`float64(srcImg.Pix[y*srcImg.Stride+x*4])`. -/
def pixval32f (srcImg : SiftImage) (x y : Int) : Option ℚ :=
  (sliceGet srcImg.Pix (y * srcImg.Stride + x * 4)).map fun v => (v : ℚ)

/-! ## Gaussian pyramid (`sift.go`) -/

/-- Lines 81 to 87 of `build_gauss_pyr`: the slice `sig` of blur increments.
`Pow` and `Sqrt` stand for `math.Pow` and `math.Sqrt`. -/
def sigSchedule {F : Type} [DivisionRing F] (Pow : F → F → F) (Sqrt : F → F)
    (intvls : Int) (sigma : F) : Option (List F) := do
  let k := Pow 2 (1 / (intvls : F))
  let sig0 ← make (intvls + 3) (0 : F)
  let sig1 ← sliceSet sig0 0 sigma
  let sig2 ← sliceSet sig1 1 (sigma * Sqrt (k * k - 1))
  forLoop 2 (intvls + 3) (fun i sig => do
    let prev ← sliceGet sig (i - 1)
    sliceSet sig i (prev * k)) sig2

/-- Function `downsample`: `resize.Resize(bounds.Dx()/2, bounds.Dy()/2, srcImg,
resize.Bilinear)`.  `Resize` stands for the library function with the bilinear
kernel, `bounds` for the method `Bounds()`.  Go division truncates. -/
def downsample {Img : Type} (bounds : Img → Rectangle) (Resize : Int → Int → Img → Img)
    (srcImg : Img) : Img :=
  Resize ((bounds srcImg).Dx.tdiv 2) ((bounds srcImg).Dy.tdiv 2) srcImg

/-- Body of the inner loop of `build_gauss_pyr` (lines 93 to 99).  An entry of
the pyramid is `none` while it is still the nil image. -/
def gaussStep {Img F : Type} (GaussianSmooth : Img → F → Int → Img)
    (bounds : Img → Rectangle) (Resize : Int → Int → Img → Img)
    (srcImg : Img) (intvls : Int) (sig : List F) (row i : Int)
    (gauss_pyr : List (List (Option Img))) : Option (List (List (Option Img))) :=
  if 0 = row ∧ 0 = i then
    set2 gauss_pyr row i (some srcImg)
  else if 0 = i then do
    let prev ← get2 gauss_pyr (row - 1) intvls
    let img ← prev
    set2 gauss_pyr row i (some (downsample bounds Resize img))
  else do
    let prev ← get2 gauss_pyr row (i - 1)
    let img ← prev
    let s ← sliceGet sig i
    set2 gauss_pyr row i (some (GaussianSmooth img s 3))

/-- Function `build_gauss_pyr` of `sift.go`.  `GaussianSmooth` stands for
`resize.GaussianSmooth`. -/
def build_gauss_pyr {Img F : Type} [DivisionRing F] (Pow : F → F → F) (Sqrt : F → F)
    (GaussianSmooth : Img → F → Int → Img)
    (bounds : Img → Rectangle) (Resize : Int → Int → Img → Img)
    (srcImg : Img) (octvs intvls : Int) (sigma : F) : Option (List (List (Option Img))) := do
  let sig ← sigSchedule Pow Sqrt intvls sigma
  let gauss_pyr ← make octvs ([] : List (Option Img))
  forLoop 0 octvs (fun row pyr => do
    let fresh ← make (intvls + 3) (none : Option Img)
    let pyr1 ← sliceSet pyr row fresh
    forLoop 0 (intvls + 3)
      (fun i p => gaussStep GaussianSmooth bounds Resize srcImg intvls sig row i p) pyr1)
    gauss_pyr

/-- Closed form of the entry `sig[j]` that `sigSchedule` computes: `sigma` for
`j = 0` and `sigma * Sqrt (k*k - 1) * k^(j-1)` for `j ≥ 1`. -/
def sigClosed {F : Type} [DivisionRing F] (Pow : F → F → F) (Sqrt : F → F)
    (intvls : Int) (sigma : F) (j : Nat) : F :=
  if j = 0 then sigma
  else sigma * Sqrt (Pow 2 (1 / (intvls : F)) * Pow 2 (1 / (intvls : F)) - 1)
    * Pow 2 (1 / (intvls : F)) ^ (j - 1)

/-- The image obtained from `base` by `i` successive calls of `GaussianSmooth`
with the increments `sig 1, ..., sig i`. -/
def smoothRun {Img F : Type} (GaussianSmooth : Img → F → Int → Img) (sig : Nat → F)
    (base : Img) : Nat → Img
  | 0 => base
  | i + 1 => GaussianSmooth (smoothRun GaussianSmooth sig base i) (sig (i + 1)) 3

/-- The first image of octave `o`: the base image for `o = 0`, otherwise the
downsampled image of interval `S` of the octave before. -/
def octaveBase {Img F : Type} (GaussianSmooth : Img → F → Int → Img)
    (bounds : Img → Rectangle) (Resize : Int → Int → Img → Img) (srcImg : Img)
    (S : Nat) (sig : Nat → F) : Nat → Img
  | 0 => srcImg
  | o + 1 => downsample bounds Resize
      (smoothRun GaussianSmooth sig (octaveBase GaussianSmooth bounds Resize srcImg S sig o) S)

/-- The image of octave `o` and interval `i` in closed form. -/
def gaussImg {Img F : Type} (GaussianSmooth : Img → F → Int → Img)
    (bounds : Img → Rectangle) (Resize : Int → Int → Img → Img) (srcImg : Img)
    (S : Nat) (sig : Nat → F) (o i : Nat) : Img :=
  smoothRun GaussianSmooth sig (octaveBase GaussianSmooth bounds Resize srcImg S sig o) i

/-- The row of octave `o` in closed form: its `S + 3` images. -/
def gaussRow {Img F : Type} (GaussianSmooth : Img → F → Int → Img)
    (bounds : Img → Rectangle) (Resize : Int → Int → Img → Img) (srcImg : Img)
    (S : Nat) (sig : Nat → F) (o : Nat) : List (Option Img) :=
  (List.range (S + 3)).map fun i =>
    some (gaussImg GaussianSmooth bounds Resize srcImg S sig o i)

/-! ## Extremum test and finite differences (`sift.go`) -/

/-- The read `pixval32f(dog_pyr[octv][intvl], r, c)`; an entry `none` of the
pyramid is a nil pointer. -/
def dogSample (dog_pyr : List (List (Option SiftImage))) (octv intvl r c : Int) : Option ℚ := do
  let entry ← get2 dog_pyr octv intvl
  let img ← entry
  pixval32f img r c

/-- The offsets `(i, j, k)` of the three nested loops of `is_extremum`, in the
order in which the loops visit them. -/
def nbhd : List (Int × Int × Int) :=
  [-1, 0, 1].flatMap fun i => [-1, 0, 1].flatMap fun j => [-1, 0, 1].map fun k => (i, j, k)

/-- The three nested loops of `is_extremum`: read every sample of the
neighbourhood in turn and return false at the first one that `reject`s. -/
def scanNbhd (read : Int × Int × Int → Option ℚ) (reject : ℚ → Bool) :
    List (Int × Int × Int) → Option Bool
  | [] => some true
  | o :: rest =>
    match read o with
    | none => none
    | some v => if reject v then some false else scanNbhd read reject rest

/-- The read `pixval32f(dog_pyr[octv][intvl+i], r+j, c+k)` of the loop body of
`is_extremum`, for the offset `o = (i, j, k)`. -/
def nbrRead (dog_pyr : List (List (Option SiftImage))) (octv intvl r c : Int)
    (o : Int × Int × Int) : Option ℚ :=
  dogSample dog_pyr octv (intvl + o.1) (r + o.2.1) (c + o.2.2)

/-- Function `is_extremum` of `sift.go`. -/
def is_extremum (dog_pyr : List (List (Option SiftImage))) (octv intvl r c : Int) :
    Option Bool := do
  let val ← dogSample dog_pyr octv intvl r c
  if val > 0 then
    scanNbhd (nbrRead dog_pyr octv intvl r c) (fun v => decide (val < v)) nbhd
  else
    scanNbhd (nbrRead dog_pyr octv intvl r c) (fun v => decide (val > v)) nbhd

/-- Function `deriv_3D` of `sift.go`; the result is the slice `di`. -/
def deriv_3D (dog_pyr : List (List (Option SiftImage))) (octv intvl r c : Int) :
    Option (List ℚ) := do
  let a0 ← dogSample dog_pyr octv intvl r (c + 1)
  let b0 ← dogSample dog_pyr octv intvl r (c - 1)
  let a1 ← dogSample dog_pyr octv intvl (r + 1) c
  let b1 ← dogSample dog_pyr octv intvl (r - 1) c
  let a2 ← dogSample dog_pyr octv (intvl + 1) r (c + 1)
  let b2 ← dogSample dog_pyr octv (intvl - 1) r c
  some [a0 - b0 / 2, a1 - b1 / 2, a2 - b2 / 2]

/-- Statement `dxx := ...` of `hessian_3D` (line 254). -/
def hessian_dxx (dog_pyr : List (List (Option SiftImage))) (octv intvl r c : Int) (v : ℚ) :
    Option ℚ := do
  let a ← dogSample dog_pyr octv intvl r (c + 1)
  let b ← dogSample dog_pyr octv intvl r (c - 1)
  some (a + b - 2 * v)

/-- Statement `dyy := ...` of `hessian_3D` (line 255). -/
def hessian_dyy (dog_pyr : List (List (Option SiftImage))) (octv intvl r c : Int) (v : ℚ) :
    Option ℚ := do
  let a ← dogSample dog_pyr octv intvl (r + 1) c
  let b ← dogSample dog_pyr octv intvl (r - 1) c
  some (a + b - 2 * v)

/-- Statement `dss := ...` of `hessian_3D` (line 256). -/
def hessian_dss (dog_pyr : List (List (Option SiftImage))) (octv intvl r c : Int) (v : ℚ) :
    Option ℚ := do
  let a ← dogSample dog_pyr octv (intvl + 1) r (c + 1)
  let b ← dogSample dog_pyr octv (intvl - 1) r c
  some (a + b - 2 * v)

/-- Statement `dxy := ...` of `hessian_3D` (lines 257 to 260). -/
def hessian_dxy (dog_pyr : List (List (Option SiftImage))) (octv intvl r c : Int) :
    Option ℚ := do
  let a ← dogSample dog_pyr octv intvl (r + 1) (c + 1)
  let b ← dogSample dog_pyr octv intvl (r + 1) (c - 1)
  let d ← dogSample dog_pyr octv intvl (r - 1) (c + 1)
  let e ← dogSample dog_pyr octv intvl (r - 1) (c - 1)
  some ((a - b - d + e) / 4)

/-- Statement `dxs := ...` of `hessian_3D` (lines 261 to 264). -/
def hessian_dxs (dog_pyr : List (List (Option SiftImage))) (octv intvl r c : Int) :
    Option ℚ := do
  let a ← dogSample dog_pyr octv (intvl + 1) r (c + 1)
  let b ← dogSample dog_pyr octv (intvl + 1) r (c - 1)
  let d ← dogSample dog_pyr octv (intvl - 1) r (c + 1)
  let e ← dogSample dog_pyr octv (intvl - 1) r (c - 1)
  some ((a - b - d + e) / 4)

/-- Statement `dys := ...` of `hessian_3D` (lines 265 to 268). -/
def hessian_dys (dog_pyr : List (List (Option SiftImage))) (octv intvl r c : Int) :
    Option ℚ := do
  let a ← dogSample dog_pyr octv (intvl + 1) (r + 1) c
  let b ← dogSample dog_pyr octv (intvl + 1) (r - 1) c
  let d ← dogSample dog_pyr octv (intvl - 1) (r + 1) c
  let e ← dogSample dog_pyr octv (intvl - 1) (r - 1) c
  some ((a - b - d + e) / 4)

/-- Function `hessian_3D` of `sift.go`; the result is the slice of rows `hs`
after the nine assignments of lines 269 to 277. -/
def hessian_3D (dog_pyr : List (List (Option SiftImage))) (octv intvl r c : Int) :
    Option (List (List ℚ)) := do
  let v ← dogSample dog_pyr octv intvl r c
  let dxx ← hessian_dxx dog_pyr octv intvl r c v
  let dyy ← hessian_dyy dog_pyr octv intvl r c v
  let dss ← hessian_dss dog_pyr octv intvl r c v
  let dxy ← hessian_dxy dog_pyr octv intvl r c
  let dxs ← hessian_dxs dog_pyr octv intvl r c
  let dys ← hessian_dys dog_pyr octv intvl r c
  some [[dxx, dxy, dxs], [dxy, dyy, dys], [dxs, dys, dss]]

/-! ## `image.Point`, `image.Rectangle` and `SiftImage` methods -/

/-- Go `(p Point) In(r Rectangle)`. -/
def Point.In (p : Point) (r : Rectangle) : Bool :=
  decide (r.Min.X ≤ p.X ∧ p.X < r.Max.X ∧ r.Min.Y ≤ p.Y ∧ p.Y < r.Max.Y)

/-- Go `(r Rectangle) Empty()`. -/
def Rectangle.Empty (r : Rectangle) : Bool :=
  decide (r.Min.X ≥ r.Max.X ∨ r.Min.Y ≥ r.Max.Y)

/-- Go `image.ZR`, the zero rectangle. -/
def ZR : Rectangle := ⟨⟨0, 0⟩, ⟨0, 0⟩⟩

/-- Go `(r Rectangle) Intersect(s Rectangle)`. -/
def Rectangle.Intersect (r s : Rectangle) : Rectangle :=
  let minX := if r.Min.X < s.Min.X then s.Min.X else r.Min.X
  let minY := if r.Min.Y < s.Min.Y then s.Min.Y else r.Min.Y
  let maxX := if r.Max.X > s.Max.X then s.Max.X else r.Max.X
  let maxY := if r.Max.Y > s.Max.Y then s.Max.Y else r.Max.Y
  let r1 : Rectangle := ⟨⟨minX, minY⟩, ⟨maxX, maxY⟩⟩
  if r1.Empty then ZR else r1

/-- Go `color.RGBA`: four 8-bit samples. -/
structure RGBAColor where
  R : Nat
  G : Nat
  B : Nat
  A : Nat
deriving DecidableEq, Repr

/-- Function `ClampUint8` of `utils.go`. -/
def ClampUint8 (v : Int) : Nat :=
  if v < 0 then 0
  else if v > 255 then 255
  else v.toNat

/-- Method `(p *SiftImage) At(x, y)`. -/
def SiftImage.At (p : SiftImage) (x y : Int) : Option RGBAColor :=
  if !(Point.In ⟨x, y⟩ p.Rect) then some ⟨0, 0, 0, 0⟩
  else do
    let i := p.PixOffset x y
    let v0 ← sliceGet p.Pix (i + 0)
    let v1 ← sliceGet p.Pix (i + 1)
    let v2 ← sliceGet p.Pix (i + 2)
    let v3 ← sliceGet p.Pix (i + 3)
    some ⟨ClampUint8 v0, ClampUint8 v1, ClampUint8 v2, ClampUint8 v3⟩

/-- Go slice expression `xs[i:]`; `none` when `i` is outside `[0, len]`. -/
def sliceFrom {α : Type} (xs : List α) (i : Int) : Option (List α) :=
  if 0 ≤ i ∧ i ≤ xs.length then some (xs.drop i.toNat) else none

/-- Method `(p *SiftImage) SubImage(r)`. -/
def SiftImage.SubImage (p : SiftImage) (r : Rectangle) : Option SiftImage :=
  let r1 := r.Intersect p.Rect
  if r1.Empty then some { Pix := [], Stride := 0, Rect := ZR }
  else do
    let i := p.PixOffset r1.Min.X r1.Min.Y
    let pix ← sliceFrom p.Pix i
    some { Pix := pix, Stride := p.Stride, Rect := r1 }

/-! ## Difference of Gaussians and the scan (`sift.go`) -/

/-- Body of the inner loop of `build_dog_pyr` (line 121):
`dog_pyr[o][i] = SubstractImage(gauss_pyr[o][i+1], gauss_pyr[o][i])`.  A nil
image makes `SubstractImage` fail. -/
def dogStep (gauss_pyr : List (List (Option Image))) (o i : Int)
    (dog_pyr : List (List (Option SiftImage))) : Option (List (List (Option SiftImage))) := do
  let e1 ← get2 gauss_pyr o (i + 1)
  let src1 ← e1
  let e2 ← get2 gauss_pyr o i
  let src2 ← e2
  let d ← SubstractImage src1 src2
  set2 dog_pyr o i (some d)

/-- Function `build_dog_pyr` of `sift.go`. -/
def build_dog_pyr (gauss_pyr : List (List (Option Image))) (octvs intvls : Int) :
    Option (List (List (Option SiftImage))) := do
  let dog_pyr ← make octvs ([] : List (Option SiftImage))
  forLoop 0 octvs (fun o pyr => do
    let fresh ← make (intvls + 2) (none : Option SiftImage)
    let pyr1 ← sliceSet pyr o fresh
    forLoop 0 (intvls + 2) (fun i p => dogStep gauss_pyr o i p) pyr1)
    dog_pyr

/-- Line 155 of `scale_space_extrema`:
`prelim_contr_thr := 0.5 * contr_thr / float64(intvls) * 256`. -/
def prelim_contr_thr (contr_thr : ℚ) (intvls : Int) : ℚ :=
  0.5 * contr_thr / (intvls : ℚ) * 256

/-- Body of the innermost loop of `scale_space_extrema` (lines 161 to 165).  The
Go function returns nothing; the list `calls` records the argument tuples
`(octv, intvl, r, c)` of the invocations of `is_extremum`, in order. -/
def scanBody (dog_pyr : List (List (Option SiftImage))) (octvs intvls : Int)
    (prelim : ℚ) (o i r c : Int) (calls : List (Int × Int × Int × Int)) :
    Option (List (Int × Int × Int × Int)) := do
  let v ← dogSample dog_pyr o i r c
  if |v| > prelim then do
    let _ ← is_extremum dog_pyr octvs intvls r c
    some (calls ++ [(octvs, intvls, r, c)])
  else some calls

/-- The loops over `i`, `r` and `c` of `scale_space_extrema` for the octave `o`
(lines 157 to 168); `SIFT_IMG_BORDER = 5`. -/
def scanOctave (dog_pyr : List (List (Option SiftImage))) (octvs intvls : Int)
    (prelim : ℚ) (o : Int) (calls : List (Int × Int × Int × Int)) :
    Option (List (Int × Int × Int × Int)) := do
  let e ← get2 dog_pyr o 0
  let img ← e
  let imgBounds := img.Bounds
  forLoop 1 (intvls + 1) (fun i t1 =>
    forLoop 5 (imgBounds.Dy - 5) (fun r t2 =>
      forLoop 5 (imgBounds.Dx - 5) (fun c t3 =>
        scanBody dog_pyr octvs intvls prelim o i r c t3) t2) t1) calls

/-- Function `scale_space_extrema` of `sift.go`; the result is the record of the
invocations of `is_extremum` (see `scanBody`), `none` when the run fails. -/
def scale_space_extrema (dog_pyr : List (List (Option SiftImage))) (contr_thr : ℚ)
    (_curv_thr : Int) : Option (List (Int × Int × Int × Int)) := do
  let octvs : Int := dog_pyr.length
  let row0 ← sliceGet dog_pyr 0
  let intvls : Int := (row0.length : Int) - 2
  forLoop 0 octvs (fun o calls =>
    scanOctave dog_pyr octvs intvls (prelim_contr_thr contr_thr intvls) o calls) []

/-- Line 41 of `sift_features`:
`int(math.Log(math.Min(float64(Dx), float64(Dy)))/math.Log(2) - 2)`.  `Log`
stands for `math.Log` and `toInt` for the conversion of a `float64` to `int`. -/
def octaveCount {F : Type} [LinearOrderedField F] (Log : F → F) (toInt : F → Int)
    (Dx Dy : Int) : Int :=
  toInt (Log (min (Dx : F) (Dy : F)) / Log 2 - 2)

/-! ## The bicubic kernel (`interpolation/bicubic.go`) -/

/-- Function `cubic` of `interpolation/bicubic.go`; `math.Abs` is the absolute
value. -/
def cubic {F : Type} [LinearOrderedField F] (x : F) : F :=
  let a := |x|
  if a ≤ 1 then a * a * (1.5 * a - 2.5) + 1.0
  else if a ≤ 2 then a * (a * (2.5 - 0.5 * a) - 4.0) + 2.0
  else 0

/-- The four weights `k1 = cubic(v - float64(m))`, `m = -1, 0, 1, 2`, of the loop
`for m := -1; m < 3; m++` of `BicubicInterpolation.Smooth` (lines 33 and 34). -/
def cubicTaps {F : Type} [LinearOrderedField F] (v : F) : List F :=
  ([-1, 0, 1, 2] : List Int).map fun (m : Int) => cubic (v - (m : F))

/-! ## Concrete inputs -/

/-- An image of the given size whose samples all equal `v`. -/
def constImage (w h : Int) (v : Nat) : Image :=
  { Bounds := rect0 w h, At := fun _ _ _ => v }

/-- The `SiftImage` of width `w` and height `h` (origin `(0, 0)`, `Stride = 4*w`)
whose channel 0 at the pixel of column `x` and row `y` is `f x y`; the other
channels are 0. -/
def siftOfFn (w h : Nat) (f : Nat → Nat → Int) : SiftImage :=
  { Pix := (List.range (4 * w * h)).map fun n =>
      if n % 4 = 0 then f ((n / 4) % w) (n / (4 * w)) else 0
    Stride := 4 * (w : Int)
    Rect := rect0 w h }

/-- One octave of three 3 x 3 images given by their channel-0 samples. -/
def octave3 (f0 f1 f2 : Nat → Nat → Int) : List (List (Option SiftImage)) :=
  [[some (siftOfFn 3 3 f0), some (siftOfFn 3 3 f1), some (siftOfFn 3 3 f2)]]

/-- One octave of three 3 x 3 images whose samples all equal 7. -/
def flatOctave : List (List (Option SiftImage)) :=
  octave3 (fun _ _ => 7) (fun _ _ => 7) (fun _ _ => 7)

/-- One octave of three 4 x 4 images given by their channel-0 samples. -/
def octave4 (f0 f1 f2 : Nat → Nat → Int) : List (List (Option SiftImage)) :=
  [[some (siftOfFn 4 4 f0), some (siftOfFn 4 4 f1), some (siftOfFn 4 4 f2)]]

/-- One octave of three 4 x 4 images whose samples all equal 7. -/
def flatOctave4 : List (List (Option SiftImage)) :=
  octave4 (fun _ _ => 7) (fun _ _ => 7) (fun _ _ => 7)

/-- One octave of three 4 x 4 images: the middle image holds `a` at row 1,
column 2, `b` at row 2, column 1 and 0 elsewhere; the outer images hold 0. -/
def spikeOctave (a b : Int) : List (List (Option SiftImage)) :=
  octave4 (fun _ _ => 0)
    (fun x y => if x = 2 ∧ y = 1 then a else if x = 1 ∧ y = 2 then b else 0)
    (fun _ _ => 0)

/-- One octave of three 3 x 3 images: the middle image holds 2 at column 1,
row 2 (the sample that `pixval32f(img, 1, 2)` reads) and 0 elsewhere; the outer
images hold 0. -/
def slopeOctave : List (List (Option SiftImage)) :=
  octave3 (fun _ _ => 0) (fun x y => if x = 1 ∧ y = 2 then 2 else 0) (fun _ _ => 0)

/-- One octave of three 3 x 3 images: interval 0 holds 0, interval 1 holds
`x^2 + y^2`, interval 2 holds 4 at column 1, row 2 and 0 elsewhere. -/
def bowlOctave : List (List (Option SiftImage)) :=
  octave3 (fun _ _ => 0) (fun x y => x * x + y * y)
    (fun x y => if x = 1 ∧ y = 2 then 4 else 0)

/-- One octave of three images of width 17 and height 11 whose samples all equal 3. -/
def wideOctave : List (List (Option SiftImage)) :=
  [[some (siftOfFn 17 11 fun _ _ => 3), some (siftOfFn 17 11 fun _ _ => 3),
    some (siftOfFn 17 11 fun _ _ => 3)]]

/-- One octave of three images of width 17 and height 11: the image of interval
1 holds `r^2 + c^2` at row `r` and column `c`, the outer images hold 0. -/
def paraboloidOctave : List (List (Option SiftImage)) :=
  [[some (siftOfFn 17 11 fun _ _ => 0), some (siftOfFn 17 11 fun x y => y * y + x * x),
    some (siftOfFn 17 11 fun _ _ => 0)]]

/-- A stand-in for the smoothing primitive on images that are represented by
their bounds alone: the bounds are kept. -/
def keepBounds (img : Rectangle) (_ : ℚ) (_ : Int) : Rectangle := img

/-- A stand-in for the resize primitive on images that are represented by their
bounds alone: the result has the requested width and height. -/
def resizeBounds (w h : Int) (_ : Rectangle) : Rectangle := rect0 w h

/-- A Gaussian pyramid of one octave and three 2 x 2 images of constant samples
9, 5 and 7 (`intvls = 0`). -/
def gaussOctave3 : List (List (Option Image)) :=
  [[some (constImage 2 2 9), some (constImage 2 2 5), some (constImage 2 2 7)]]

/-- One octave of three images of width 11 and height 11 whose samples all
equal 7; the scan visits the single position `r = 5`, `c = 5` of interval 1. -/
def scanOctave11 : List (List (Option SiftImage)) :=
  [[some (siftOfFn 11 11 fun _ _ => 7), some (siftOfFn 11 11 fun _ _ => 7),
    some (siftOfFn 11 11 fun _ _ => 7)]]

/-- The `SiftImage` that `newSiftImage` returns for `image.Rect(0, 0, w, h)`,
with its samples set to `Pix[n] = n`. -/
def rampImage (w h : Nat) : SiftImage :=
  { Pix := (List.range (4 * w * h)).map fun n => (n : Int)
    Stride := 4 * (w : Int)
    Rect := rect0 w h }

/-! ## Properties named by the specification -/

/-- The sample at row `r` and column `c` of the image `dog_pyr[octv][intvl]`, as
the specification names it: channel 0 of the pixel at row `r` and column `c`,
`Pix[r*Stride + c*4]`, the element at `PixOffset(c, r)`. -/
def sampleAt (dog_pyr : List (List (Option SiftImage))) (octv intvl r c : Int) : Option ℚ := do
  let entry ← get2 dog_pyr octv intvl
  let img ← entry
  (sliceGet img.Pix (r * img.Stride + c * 4)).map fun v => (v : ℚ)

/-- The sample at row `r` and column `c` of interval `intvl` is strictly greater
than the samples at its 26 neighbours, or strictly less than each of them. -/
def IsStrictExtremum (dog_pyr : List (List (Option SiftImage))) (octv intvl r c : Int) : Prop :=
  ∃ val, sampleAt dog_pyr octv intvl r c = some val ∧
    ((∀ o ∈ nbhd, o ≠ (0, 0, 0) →
        ∃ v, sampleAt dog_pyr octv (intvl + o.1) (r + o.2.1) (c + o.2.2) = some v ∧ v < val) ∨
     (∀ o ∈ nbhd, o ≠ (0, 0, 0) →
        ∃ v, sampleAt dog_pyr octv (intvl + o.1) (r + o.2.1) (c + o.2.2) = some v ∧ val < v))

/-- The sample at row `r` and column `c` of interval `intvl` is positive and
strictly greater than the samples at its 26 neighbours (rows `r-1..r+1`, columns
`c-1..c+1`, intervals `intvl-1..intvl+1`). -/
def IsStrictMaxSample (dog_pyr : List (List (Option SiftImage))) (octv intvl r c : Int) :
    Prop :=
  ∃ val, sampleAt dog_pyr octv intvl r c = some val ∧ 0 < val ∧
    ∀ o ∈ nbhd, o ≠ (0, 0, 0) →
      ∃ v, sampleAt dog_pyr octv (intvl + o.1) (r + o.2.1) (c + o.2.2) = some v ∧ v < val

/-- The sample at row `r` and column `c` of interval `intvl` is negative and
strictly less than the samples at its 26 neighbours. -/
def IsStrictMinSample (dog_pyr : List (List (Option SiftImage))) (octv intvl r c : Int) :
    Prop :=
  ∃ val, sampleAt dog_pyr octv intvl r c = some val ∧ val < 0 ∧
    ∀ o ∈ nbhd, o ≠ (0, 0, 0) →
      ∃ v, sampleAt dog_pyr octv (intvl + o.1) (r + o.2.1) (c + o.2.2) = some v ∧ val < v

/-- Every sample of the pyramid equals `k`: whatever row and column of whatever
image is read, the value is `k`. -/
def ConstantSamples (dog_pyr : List (List (Option SiftImage))) (k : ℚ) : Prop :=
  ∀ octv intvl r c v, sampleAt dog_pyr octv intvl r c = some v → v = k

/-- The invariant of `SiftImage` named by the specification:
`Stride = 4 * width` and `len(Pix) = Stride * height`, width and height being
those of `Rect`. -/
def SiftImage.WellFormed (p : SiftImage) : Prop :=
  p.Stride = 4 * p.Rect.Dx ∧ (p.Pix.length : Int) = p.Stride * p.Rect.Dy

/-- The entry `e` of a DoG pyramid is the image
`SubstractImage(gauss_pyr[o][i+1], gauss_pyr[o][i])`, both reads of `gauss_pyr`
being in range. -/
def DogEntryOk (gauss_pyr : List (List (Option Image))) (o i : Int)
    (e : Option (Option SiftImage)) : Prop :=
  ∃ a b d, get2 gauss_pyr o (i + 1) = some (some a) ∧ get2 gauss_pyr o i = some (some b) ∧
    SubstractImage a b = some d ∧ e = some (some d)

/-- Every sample of every image of the DoG pyramid lies in `[0, 255]`. -/
def SamplesInByteRange (pyr : List (List (Option SiftImage))) : Prop :=
  ∀ row ∈ pyr, ∀ d : SiftImage, some d ∈ row → ∀ v ∈ d.Pix, 0 ≤ v ∧ v ≤ 255

/-- The central-difference gradient as the specification states it:
`[(I(r,c+1) - I(r,c-1))/2, (I(r+1,c) - I(r-1,c))/2, (I_up(r,c) - I_down(r,c))/2]`. -/
def centralGradient (dog_pyr : List (List (Option SiftImage))) (octv intvl r c : Int) :
    Option (List ℚ) := do
  let a0 ← dogSample dog_pyr octv intvl r (c + 1)
  let b0 ← dogSample dog_pyr octv intvl r (c - 1)
  let a1 ← dogSample dog_pyr octv intvl (r + 1) c
  let b1 ← dogSample dog_pyr octv intvl (r - 1) c
  let a2 ← dogSample dog_pyr octv (intvl + 1) r c
  let b2 ← dogSample dog_pyr octv (intvl - 1) r c
  some [(a0 - b0) / 2, (a1 - b1) / 2, (a2 - b2) / 2]

/-- The second difference along the scale axis as the specification states it:
`Iss = I_up(r,c) + I_down(r,c) - 2*I(r,c)`. -/
def centralIss (dog_pyr : List (List (Option SiftImage))) (octv intvl r c : Int) :
    Option ℚ := do
  let v ← dogSample dog_pyr octv intvl r c
  let a ← dogSample dog_pyr octv (intvl + 1) r c
  let b ← dogSample dog_pyr octv (intvl - 1) r c
  some (a + b - 2 * v)

/-- The positions `(o, i, r, c)` that the scan visits in octave `o`, in the order
of the scan: the intervals `1 ≤ i ≤ S`, the rows `5 ≤ r < Dy - 5` and the columns
`5 ≤ c < Dx - 5`, for the bounds of `dog_pyr[o][0]`. -/
def scannedInOctave (o S : Int) (bounds : Rectangle) : List (Int × Int × Int × Int) :=
  (List.range S.toNat).flatMap fun (i : Nat) =>
    (List.range (bounds.Dy - 5 - 5).toNat).flatMap fun (r : Nat) =>
      (List.range (bounds.Dx - 5 - 5).toNat).map fun (c : Nat) =>
        (o, 1 + (i : Int), 5 + (r : Int), 5 + (c : Int))

/-- The positions that the scan visits in the whole pyramid, octave after
octave; `none` when the image `dog_pyr[o][0]` of an octave is missing. -/
def scannedPositions (dog_pyr : List (List (Option SiftImage))) (S : Int) :
    Option (List (Int × Int × Int × Int)) :=
  (allSome ((List.range dog_pyr.length).map fun (o : Nat) =>
    (get2 dog_pyr (o : Int) 0).bind fun e =>
      e.map fun img => scannedInOctave (o : Int) S img.Bounds)).map List.flatten

/-- The scanned samples: every scanned position `(o, i, r, c)` with the value
`pixval32f(dog_pyr[o][i], r, c)` read there, in the order of the scan; `none`
when a read fails. -/
def scannedSamples (dog_pyr : List (List (Option SiftImage))) (S : Int) :
    Option (List ((Int × Int × Int × Int) × ℚ)) :=
  (scannedPositions dog_pyr S).bind fun ps =>
    allSome (ps.map fun p => (dogSample dog_pyr p.1 p.2.1 p.2.2.1 p.2.2.2).map fun v => (p, v))

/-- The contrast gate as the specification states it: the sample `v` proceeds
to the neighbour test when `|v| > prelim`. -/
def passesGate (prelim v : ℚ) : Bool := decide (|v| > prelim)

/-- The neighbour test that line 162 of `scale_space_extrema` makes for the
scanned position `p = (o, i, r, c)`, `is_extremum(dog_pyr, octvs, intvls, r, c)`,
added to the record `calls` when it returns. -/
def neighbourTest (dog_pyr : List (List (Option SiftImage))) (octvs intvls : Int)
    (calls : List (Int × Int × Int × Int)) (p : Int × Int × Int × Int) :
    Option (List (Int × Int × Int × Int)) :=
  (is_extremum dog_pyr octvs intvls p.2.2.1 p.2.2.2).map fun _ =>
    calls ++ [(octvs, intvls, p.2.2.1, p.2.2.2)]

/-- The scan as the specification states it: with `S = len(dog_pyr[0]) - 2` and
`prelim = 0.5 * contr_thr / S * 256`, the scanned samples that pass the gate
proceed to the neighbour test, in the order of the scan, and the others are
skipped.  For `S ≤ 0` no position is scanned and `prelim` is not used. -/
def gatedScan (dog_pyr : List (List (Option SiftImage))) (contr_thr : ℚ) :
    Option (List (Int × Int × Int × Int)) := do
  let row0 ← sliceGet dog_pyr 0
  let S : Int := (row0.length : Int) - 2
  let prelim : ℚ := 0.5 * contr_thr / (S : ℚ) * 256
  let samples ← scannedSamples dog_pyr S
  ((samples.filter fun pv => passesGate prelim pv.2).map fun pv => pv.1).foldlM
    (neighbourTest dog_pyr (dog_pyr.length : Int) S) []

end GoSift

/-! ## Theorems -/

namespace GoSift

/-! ### Loops -/

theorem foldlM_range_succ {σ : Type} (f : σ → Nat → Option σ) (s : σ) (n : Nat) :
    (List.range (n + 1)).foldlM f s = ((List.range n).foldlM f s).bind fun st => f st n := by
  rw [List.range_succ, List.foldlM_append]
  cases h : List.foldlM f s (List.range n) <;> simp [h]

/-- Total-correctness rule for a counted loop: an invariant that holds at the
start and is carried by every iteration, which also does not fail, holds at the
end, and the loop does not fail. -/
theorem foldlM_range_inv {σ : Type} (P : Nat → σ → Prop) (f : σ → Nat → Option σ) (n : Nat)
    (s : σ) (h0 : P 0 s)
    (hstep : ∀ m st, m < n → P m st → ∃ st1, f st m = some st1 ∧ P (m + 1) st1) :
    ∃ st, (List.range n).foldlM f s = some st ∧ P n st := by
  induction n with
  | zero => exact ⟨s, by simp, h0⟩
  | succ k ih =>
    obtain ⟨st, hst, hP⟩ := ih fun m st hm hp => hstep m st (Nat.lt_succ_of_lt hm) hp
    obtain ⟨st1, hf, hP1⟩ := hstep k st (Nat.lt_succ_self k) hP
    exact ⟨st1, by rw [foldlM_range_succ, hst]; simpa using hf, hP1⟩

/-- The rule `foldlM_range_inv` for `forLoop`. -/
theorem forLoop_inv {σ : Type} (P : Nat → σ → Prop) (lo hi : Int)
    (body : Int → σ → Option σ) (s : σ) (h0 : P 0 s)
    (hstep : ∀ m st, m < (hi - lo).toNat → P m st →
      ∃ st1, body (lo + (m : Int)) st = some st1 ∧ P (m + 1) st1) :
    ∃ st, forLoop lo hi body s = some st ∧ P (hi - lo).toNat st := by
  unfold forLoop
  exact foldlM_range_inv P (fun st (n : Nat) => body (lo + (n : Int)) st) _ s h0 hstep

/-! ### The extremum test -/

theorem scanNbhd_eq_true (read : Int × Int × Int → Option ℚ) (reject : ℚ → Bool)
    (l : List (Int × Int × Int)) :
    scanNbhd read reject l = some true ↔ ∀ o ∈ l, ∃ v, read o = some v ∧ reject v = false := by
  induction l with
  | nil => simp [scanNbhd]
  | cons o rest ih =>
    cases h : read o with
    | none => simp [scanNbhd, h]
    | some v =>
      cases hr : reject v <;> simp [scanNbhd, h, hr, ih]

theorem nbrRead_centre (dog_pyr : List (List (Option SiftImage))) (octv intvl r c : Int) :
    nbrRead dog_pyr octv intvl r c (0, 0, 0) = dogSample dog_pyr octv intvl r c := by
  simp [nbrRead]

theorem centre_mem_nbhd : ((0, 0, 0) : Int × Int × Int) ∈ nbhd := by decide

/-! ### C1: `SubstractImage` -/

/-- C1, evaluated at the failing input.  For two 1 x 1 images whose samples are
`a = 0` and `b = 1`, the signed difference `a - b` is `-1`, but every sample of
`SubstractImage` is `255`: the subtraction is done in `uint8` and wraps. -/
theorem SubstractImage_wraps_at_zero_minus_one :
    ((constImage 1 1 0).At 0 0 0 : Int) - ((constImage 1 1 1).At 0 0 0 : Int) = -1 ∧
    SubstractImage (constImage 1 1 0) (constImage 1 1 1)
      = some ⟨[255, 255, 255, 255], 4, rect0 1 1⟩ := by
  decide

/-! ### C2: what a positive answer of `is_extremum` means -/

theorem dogSample_eq_sampleAt (dog_pyr : List (List (Option SiftImage)))
    (octv intvl r c : Int) :
    dogSample dog_pyr octv intvl r c = sampleAt dog_pyr octv intvl c r := by
  unfold dogSample sampleAt pixval32f
  cases get2 dog_pyr octv intvl with
  | none => rfl
  | some e =>
    cases e with
    | none => rfl
    | some img =>
      simp only [Option.bind_eq_bind, Option.some_bind]

theorem scanNbhd_ne_false (read : Int × Int × Int → Option ℚ) (reject : ℚ → Bool)
    (l : List (Int × Int × Int)) (h : ∀ o v, read o = some v → reject v = false) :
    scanNbhd read reject l ≠ some false := by
  induction l with
  | nil => simp [scanNbhd]
  | cons o rest ih =>
    cases hr : read o with
    | none => simp [scanNbhd, hr]
    | some v => simp [scanNbhd, hr, h o v hr, ih]

theorem sliceGet_mem {α : Type} (xs : List α) (i : Int) (a : α) (h : sliceGet xs i = some a) :
    a ∈ xs := by
  unfold sliceGet at h
  split at h
  · obtain ⟨hlt, heq⟩ := List.getElem?_eq_some.mp h
    exact heq ▸ List.getElem_mem hlt
  · cases h

theorem get2_mem {α : Type} (pyr : List (List α)) (r i : Int) (a : α)
    (h : get2 pyr r i = some a) : ∃ row ∈ pyr, a ∈ row := by
  unfold get2 at h
  cases hr : sliceGet pyr r with
  | none => simp [hr] at h
  | some row =>
    simp only [hr, Option.bind_eq_bind, Option.some_bind] at h
    exact ⟨row, sliceGet_mem _ _ _ hr, sliceGet_mem _ _ _ h⟩

theorem siftOfFn_const_read (w h : Nat) (k : Int) (r c x : Int)
    (hx : sliceGet (siftOfFn w h fun _ _ => k).Pix
      (r * (siftOfFn w h fun _ _ => k).Stride + c * 4) = some x) : x = k := by
  simp only [siftOfFn, sliceGet] at hx
  split at hx
  · rename_i hnn
    rw [List.getElem?_map] at hx
    cases hg : (List.range (4 * w * h))[(r * (4 * (w : Int)) + c * 4).toNat]? with
    | none => simp [hg] at hx
    | some n =>
      obtain ⟨hlt, heq⟩ := List.getElem?_eq_some.mp hg
      rw [List.getElem_range] at heq
      simp only [hg, Option.map_some', Option.some.injEq] at hx
      have hm : n % 4 = 0 := by
        have h4 : r * (4 * (w : Int)) + c * 4 = 4 * (r * w + c) := by ring
        rw [h4] at heq hnn
        omega
      simpa [hm] using hx.symm
  · cases hx

theorem flatOctave4_constant : ConstantSamples flatOctave4 7 := by
  intro octv intvl r c v h
  unfold sampleAt at h
  cases hg : get2 flatOctave4 octv intvl with
  | none => simp [hg] at h
  | some e =>
    obtain ⟨row, hrow, he⟩ := get2_mem _ _ _ _ hg
    simp only [flatOctave4, octave4, List.mem_singleton] at hrow
    subst hrow
    simp only [List.mem_cons, List.mem_singleton, List.not_mem_nil, or_false, or_self] at he
    subst he
    simp only [hg, Option.bind_eq_bind, Option.some_bind] at h
    cases hs : sliceGet (siftOfFn 4 4 fun _ _ => 7).Pix
        (r * (siftOfFn 4 4 fun _ _ => 7).Stride + c * 4) with
    | none => simp [hs] at h
    | some x =>
      have hx := siftOfFn_const_read 4 4 7 r c x hs
      subst hx
      simp [hs] at h
      rw [← h]

/-- C2 as stated fails: on the octave whose samples all equal 7, `is_extremum`
answers true at the middle pixel of the middle interval, which is neither
strictly greater nor strictly less than its neighbours. -/
theorem is_extremum_flat_not_strict :
    is_extremum flatOctave 0 1 1 1 = some true ∧ ¬ IsStrictExtremum flatOctave 0 1 1 1 := by
  refine ⟨by decide, ?_⟩
  rintro ⟨val, hval, h⟩
  have hv : val = 7 := by
    have h7 : sampleAt flatOctave 0 1 1 1 = some 7 := by decide
    rw [h7] at hval
    exact (Option.some.inj hval).symm
  have hmem : ((-1, -1, -1) : Int × Int × Int) ∈ nbhd := by decide
  have hne : ((-1, -1, -1) : Int × Int × Int) ≠ (0, 0, 0) := by decide
  have hrd : sampleAt flatOctave 0 (1 + (-1)) (1 + (-1)) (1 + (-1)) = some 7 := by decide
  rcases h with h | h
  · obtain ⟨v, h1, h2⟩ := h _ hmem hne
    rw [hrd] at h1
    have : v = 7 := (Option.some.inj h1).symm
    subst this; subst hv
    exact lt_irrefl _ h2
  · obtain ⟨v, h1, h2⟩ := h _ hmem hne
    rw [hrd] at h1
    have : v = 7 := (Option.some.inj h1).symm
    subst this; subst hv
    exact lt_irrefl _ h2

/-- C2, amended.  Write `v(i,j,k)` for the value that `is_extremum` reads for
the offset `(i, j, k)`, `pixval32f(dog_pyr[octv][intvl+i], r+j, c+k)`.  If
`is_extremum` answers true, the 27 reads are in range and the centre value
`v(0,0,0)` is positive and at least as large as each of the 27 values read, or
it is not positive and at most as large as each of them: ties are accepted.
Where the 27 reads are in range and return one value, `is_extremum` answers
true.  On a pyramid whose samples all equal one value, `is_extremum` never
answers false.  Which element of `Pix` a read returns is not stated here. -/
theorem is_extremum_true_weak_extremum :
    (∀ (dog_pyr : List (List (Option SiftImage))) (octv intvl r c : Int),
      is_extremum dog_pyr octv intvl r c = some true →
      ∃ val, dogSample dog_pyr octv intvl r c = some val ∧
        ((0 < val ∧ ∀ o ∈ nbhd, ∃ v, nbrRead dog_pyr octv intvl r c o = some v ∧ v ≤ val) ∨
         (val ≤ 0 ∧ ∀ o ∈ nbhd, ∃ v, nbrRead dog_pyr octv intvl r c o = some v ∧ val ≤ v))) ∧
    (∀ (dog_pyr : List (List (Option SiftImage))) (octv intvl r c : Int) (k : ℚ),
      (∀ o ∈ nbhd, nbrRead dog_pyr octv intvl r c o = some k) →
      is_extremum dog_pyr octv intvl r c = some true) ∧
    (∀ (dog_pyr : List (List (Option SiftImage))) (k : ℚ), ConstantSamples dog_pyr k →
      ∀ octv intvl r c : Int, is_extremum dog_pyr octv intvl r c ≠ some false) := by
  refine ⟨?_, ?_, ?_⟩
  · intro dog_pyr octv intvl r c h
    unfold is_extremum at h
    cases hval : dogSample dog_pyr octv intvl r c with
    | none => simp [hval] at h
    | some val =>
      refine ⟨val, rfl, ?_⟩
      by_cases hpos : val > 0
      · left
        simp only [hval, Option.bind_eq_bind, Option.some_bind, hpos, if_true] at h
        rw [scanNbhd_eq_true] at h
        refine ⟨hpos, fun o ho => ?_⟩
        obtain ⟨v, h1, h2⟩ := h o ho
        exact ⟨v, h1, by simpa using h2⟩
      · right
        simp only [hval, Option.bind_eq_bind, Option.some_bind, hpos, if_false] at h
        rw [scanNbhd_eq_true] at h
        refine ⟨not_lt.mp hpos, fun o ho => ?_⟩
        obtain ⟨v, h1, h2⟩ := h o ho
        exact ⟨v, h1, by simpa using h2⟩
  · intro dog_pyr octv intvl r c k hk
    have hval : dogSample dog_pyr octv intvl r c = some k := by
      rw [← nbrRead_centre]; exact hk _ centre_mem_nbhd
    unfold is_extremum
    simp only [hval, Option.bind_eq_bind, Option.some_bind]
    split
    · rw [scanNbhd_eq_true]
      intro o ho
      exact ⟨k, hk o ho, by simp⟩
    · rw [scanNbhd_eq_true]
      intro o ho
      exact ⟨k, hk o ho, by simp⟩
  · intro dog_pyr k hk octv intvl r c
    have hread : ∀ o v, nbrRead dog_pyr octv intvl r c o = some v → v = k := by
      intro o v hv
      unfold nbrRead at hv
      rw [dogSample_eq_sampleAt] at hv
      exact hk _ _ _ _ _ hv
    unfold is_extremum
    cases hval : dogSample dog_pyr octv intvl r c with
    | none => simp
    | some val =>
      have hvk : val = k := by
        rw [dogSample_eq_sampleAt] at hval
        exact hk _ _ _ _ _ hval
      simp only [Option.bind_eq_bind, Option.some_bind]
      split
      · exact scanNbhd_ne_false _ _ _ fun o v hv => by
          rw [hread o v hv, hvk]; simp
      · exact scanNbhd_ne_false _ _ _ fun o v hv => by
          rw [hread o v hv, hvk]; simp

/-- Instance of the amended C2 away from the diagonal, at `(intvl, r, c) = (1, 1, 2)`
of 4 x 4 images: on `spikeOctave 0 100` the answer is true and the centre value
read dominates the 27 values read; on the octave whose samples all equal 7 the
answer is true, and it is not false. -/
theorem is_extremum_true_weak_extremum_witness :
    (∃ val, dogSample (spikeOctave 0 100) 0 1 1 2 = some val ∧
      ((0 < val ∧ ∀ o ∈ nbhd, ∃ v, nbrRead (spikeOctave 0 100) 0 1 1 2 o = some v ∧ v ≤ val) ∨
       (val ≤ 0 ∧
        ∀ o ∈ nbhd, ∃ v, nbrRead (spikeOctave 0 100) 0 1 1 2 o = some v ∧ val ≤ v))) ∧
    is_extremum flatOctave4 0 1 1 2 = some true ∧
    is_extremum flatOctave4 0 1 1 2 ≠ some false :=
  ⟨is_extremum_true_weak_extremum.1 (spikeOctave 0 100) 0 1 1 2 (by decide),
    is_extremum_true_weak_extremum.2.1 flatOctave4 0 1 1 2 7 (by decide),
    is_extremum_true_weak_extremum.2.2 flatOctave4 7 flatOctave4_constant 0 1 1 2⟩

/-! ### C3: the reads of `is_extremum` inside the scanned region -/

set_option maxRecDepth 100000 in
/-- C3, evaluated at the failing input.  The three images have width 17, height
11, `Stride = 4 * 17` and `len(Pix) = 4 * 17 * 11 = 748`; the position
`r = 5`, `c = 11` is inside the scan bounds (`5 ≤ r < 11 - 5`, `5 ≤ c < 17 - 5`).
The first read of `is_extremum` there, `pixval32f(img, r, c)`, uses the index
`c * Stride + r * 4 = 768`, outside `[0, 748)`, and `is_extremum` fails. -/
theorem is_extremum_wide_image_out_of_range :
    (∀ e ∈ wideOctave.head!, ∃ img, e = some img ∧ img.Rect = rect0 17 11 ∧
        img.Stride = 4 * 17 ∧ (img.Pix.length : Int) = 4 * 17 * 11) ∧
    ((5 : Int) ≤ 5 ∧ (5 : Int) < 11 - 5 ∧ (5 : Int) ≤ 11 ∧ (11 : Int) < 17 - 5) ∧
    (11 : Int) * (4 * 17) + 5 * 4 = 768 ∧
    dogSample wideOctave 0 1 5 11 = none ∧
    is_extremum wideOctave 0 1 5 11 = none := by
  refine ⟨?_, by decide, by decide, by decide, by decide⟩
  intro e he
  simp only [wideOctave, List.head!, List.mem_cons, List.mem_singleton, List.not_mem_nil,
    or_false, or_self] at he
  subst he
  exact ⟨_, rfl, by decide, by decide, by decide⟩

/-! ### C4: strict extrema of the samples -/

theorem siftOfFn_sampleAt (w h : Nat) (f : Nat → Nat → Int) (x y : Nat) (hx : x < w)
    (hy : y < h) :
    sliceGet (siftOfFn w h f).Pix (((y : Int)) * (siftOfFn w h f).Stride + (x : Int) * 4)
      = some (f x y) := by
  have hidx : ((y : Int)) * (4 * (w : Int)) + (x : Int) * 4 = (((y * (4 * w) + x * 4 : Nat)) : Int) := by
    push_cast; ring
  have hw : 0 < w := Nat.lt_of_le_of_lt (Nat.zero_le _) hx
  have hlt : y * (4 * w) + x * 4 < 4 * w * h := by
    have h1 : y * w + w ≤ h * w := by
      have := Nat.mul_le_mul_right w (Nat.succ_le_of_lt hy)
      simpa [Nat.succ_mul] using this
    have h2 : y * (4 * w) = 4 * (y * w) := by ring
    have h3 : 4 * w * h = 4 * (h * w) := by ring
    omega
  have hm : (y * (4 * w) + x * 4) % 4 = 0 := by
    have h2 : y * (4 * w) = 4 * (y * w) := by ring
    omega
  have hq : (y * (4 * w) + x * 4) / 4 = y * w + x := by
    have h2 : y * (4 * w) = 4 * (y * w) := by ring
    omega
  have hc : (y * w + x) % w = x := by
    rw [Nat.add_comm, Nat.add_mul_mod_self_right, Nat.mod_eq_of_lt hx]
  have hr : (y * (4 * w) + x * 4) / (4 * w) = y := by
    have h4 : 0 < 4 * w := by omega
    rw [Nat.add_comm, Nat.add_mul_div_right _ _ h4]
    have : x * 4 / (4 * w) = 0 := Nat.div_eq_of_lt (by omega)
    omega
  simp only [siftOfFn]
  rw [hidx]
  simp only [sliceGet, Int.natCast_nonneg, if_true, Int.toNat_ofNat]
  rw [List.getElem?_map, List.getElem?_range hlt]
  simp [hm, hq, hc, hr]

/-- C4, evaluated at the failing input.  In `spikeOctave 100 50` the images are
4 x 4 with `Stride = 4 * 4` and `len(Pix) = 4 * 4 * 4`, and the position
`(intvl, r, c) = (1, 1, 2)` has a neighbour on every side.  The sample at row 1,
column 2 is 100, positive and strictly greater than its 26 neighbours (25 zeros
and the 50 at row 2, column 1), but `is_extremum(dog_pyr, 0, 1, 1, 2)` answers
false: it reads `pixval32f(img, 1, 2)`, the sample 50 at row 2, column 1, and
finds the greater value 100 among what it reads as neighbours.  With the signs
flipped, the sample -100 is negative and strictly less than its 26 neighbours
and `is_extremum` answers false as well. -/
theorem is_extremum_rejects_strict_extremum :
    (∀ a b : Int, ∀ e ∈ (spikeOctave a b).head!, ∃ img, e = some img ∧
        img.Rect = rect0 4 4 ∧ img.Stride = 4 * 4 ∧ (img.Pix.length : Int) = 4 * 4 * 4) ∧
    IsStrictMaxSample (spikeOctave 100 50) 0 1 1 2 ∧
    is_extremum (spikeOctave 100 50) 0 1 1 2 = some false ∧
    IsStrictMinSample (spikeOctave (-100) (-50)) 0 1 1 2 ∧
    is_extremum (spikeOctave (-100) (-50)) 0 1 1 2 = some false := by
  refine ⟨?_, ⟨100, by decide, by norm_num, ?_⟩, by decide, ⟨-100, by decide, by norm_num, ?_⟩,
    by decide⟩
  · intro a b e he
    simp only [spikeOctave, octave4, List.head!, List.mem_cons, List.mem_singleton,
      List.not_mem_nil, or_false] at he
    rcases he with he | he | he <;> subst he <;>
      exact ⟨_, rfl, rfl, rfl, by simp [siftOfFn]⟩
  · have h : ∀ o ∈ nbhd, o ≠ (0, 0, 0) →
        (sampleAt (spikeOctave 100 50) 0 (1 + o.1) (1 + o.2.1) (2 + o.2.2) = some 0 ∨
         sampleAt (spikeOctave 100 50) 0 (1 + o.1) (1 + o.2.1) (2 + o.2.2) = some 50) := by
      decide
    intro o ho hne
    rcases h o ho hne with h0 | h0
    · exact ⟨0, h0, by norm_num⟩
    · exact ⟨50, h0, by norm_num⟩
  · have h : ∀ o ∈ nbhd, o ≠ (0, 0, 0) →
        (sampleAt (spikeOctave (-100) (-50)) 0 (1 + o.1) (1 + o.2.1) (2 + o.2.2) = some 0 ∨
         sampleAt (spikeOctave (-100) (-50)) 0 (1 + o.1) (1 + o.2.1) (2 + o.2.2)
           = some (-50)) := by
      decide
    intro o ho hne
    rcases h o ho hne with h0 | h0
    · exact ⟨0, h0, by norm_num⟩
    · exact ⟨-50, h0, by norm_num⟩

/-! ### C5 and C6: the finite differences -/

/-- C5, evaluated at the failing input `slopeOctave`: the middle image holds 2
at the sample read as `I(r, c+1)` and 0 elsewhere.  The central difference along
`x` is `(2 - 0) / 2 = 1`, but `deriv_3D` returns `2 - 0 / 2 = 2`. -/
theorem deriv_3D_not_central_difference :
    deriv_3D slopeOctave 0 1 1 1 = some [2, 0, 0] ∧
    centralGradient slopeOctave 0 1 1 1 = some [1, 0, 0] := by
  have h1 : dogSample slopeOctave 0 1 1 2 = some 2 := by decide
  have h2 : dogSample slopeOctave 0 1 1 0 = some 0 := by decide
  have h3 : dogSample slopeOctave 0 1 2 1 = some 0 := by decide
  have h4 : dogSample slopeOctave 0 1 0 1 = some 0 := by decide
  have h5 : dogSample slopeOctave 0 2 1 2 = some 0 := by decide
  have h6 : dogSample slopeOctave 0 0 1 1 = some 0 := by decide
  have h7 : dogSample slopeOctave 0 2 1 1 = some 0 := by decide
  constructor
  · simp [deriv_3D, h1, h2, h3, h4, h5, h6]
  · simp [centralGradient, h1, h2, h3, h4, h6, h7]

/-- C6, evaluated at the failing input `bowlOctave`: the image of interval
`intvl + 1` holds 4 at the sample read as `I(r, c+1)` and 0 elsewhere, the middle
image holds `x^2 + y^2`.  The second difference along the scale axis is
`0 + 0 - 2 * 2 = -4`, but the entry `hs[2][2]` of `hessian_3D` is
`4 + 0 - 2 * 2 = 0`. -/
theorem hessian_3D_dss_reads_wrong_column :
    (hessian_3D bowlOctave 0 1 1 1).bind (fun hs => get2 hs 2 2) = some 0 ∧
    centralIss bowlOctave 0 1 1 1 = some (-4) := by
  have m00 : dogSample bowlOctave 0 1 0 0 = some 0 := by decide
  have m01 : dogSample bowlOctave 0 1 0 1 = some 1 := by decide
  have m02 : dogSample bowlOctave 0 1 0 2 = some 4 := by decide
  have m10 : dogSample bowlOctave 0 1 1 0 = some 1 := by decide
  have m11 : dogSample bowlOctave 0 1 1 1 = some 2 := by decide
  have m12 : dogSample bowlOctave 0 1 1 2 = some 5 := by decide
  have m20 : dogSample bowlOctave 0 1 2 0 = some 4 := by decide
  have m21 : dogSample bowlOctave 0 1 2 1 = some 5 := by decide
  have m22 : dogSample bowlOctave 0 1 2 2 = some 8 := by decide
  have u01 : dogSample bowlOctave 0 2 0 1 = some 0 := by decide
  have u10 : dogSample bowlOctave 0 2 1 0 = some 0 := by decide
  have u11 : dogSample bowlOctave 0 2 1 1 = some 0 := by decide
  have u12 : dogSample bowlOctave 0 2 1 2 = some 4 := by decide
  have u21 : dogSample bowlOctave 0 2 2 1 = some 0 := by decide
  have d01 : dogSample bowlOctave 0 0 0 1 = some 0 := by decide
  have d10 : dogSample bowlOctave 0 0 1 0 = some 0 := by decide
  have d11 : dogSample bowlOctave 0 0 1 1 = some 0 := by decide
  have d12 : dogSample bowlOctave 0 0 1 2 = some 0 := by decide
  have d21 : dogSample bowlOctave 0 0 2 1 = some 0 := by decide
  constructor
  · simp [hessian_3D, hessian_dxx, hessian_dyy, hessian_dss, hessian_dxy, hessian_dxs,
      hessian_dys, m00, m01, m02, m10, m11, m12, m20, m21, m22, u01, u10, u11, u12, u21,
      d01, d10, d11, d12, d21, get2, sliceGet]
    norm_num
  · simp [centralIss, m11, u11, d11]
    norm_num

/-! ### C7: the Hessian of `r^2 + c^2` -/

set_option maxRecDepth 100000 in
/-- C7, evaluated at the failing input.  In `paraboloidOctave` the image of
interval 1 has width 17, height 11, `Stride = 4 * 17` and
`len(Pix) = 4 * 17 * 11 = 748`, and holds the sample `r^2 + c^2` at every row
`r` and column `c`.  The position `r = 5`, `c = 11` is interior
(`1 ≤ r < 11 - 1`, `1 ≤ c < 17 - 1`, intervals 0 and 2 exist), but
`hessian_3D(dog_pyr, 0, 1, 5, 11)` returns no matrix: its first read,
`pixval32f(img, r, c)`, uses the index `c * Stride + r * 4 = 768`, outside
`[0, 748)`. -/
theorem hessian_3D_paraboloid_out_of_range :
    (∀ e ∈ paraboloidOctave.head!, ∃ img, e = some img ∧ img.Rect = rect0 17 11 ∧
        img.Stride = 4 * 17 ∧ (img.Pix.length : Int) = 4 * 17 * 11) ∧
    (∀ r c : Nat, r < 11 → c < 17 →
      sampleAt paraboloidOctave 0 1 r c = some (((r : ℚ)) ^ 2 + (c : ℚ) ^ 2)) ∧
    ((1 : Int) ≤ 5 ∧ (5 : Int) < 11 - 1 ∧ (1 : Int) ≤ 11 ∧ (11 : Int) < 17 - 1) ∧
    (11 : Int) * (4 * 17) + 5 * 4 = 768 ∧
    dogSample paraboloidOctave 0 1 5 11 = none ∧
    hessian_3D paraboloidOctave 0 1 5 11 = none := by
  refine ⟨?_, ?_, by decide, by decide, by decide, by decide⟩
  · intro e he
    simp only [paraboloidOctave, List.head!, List.mem_cons, List.mem_singleton,
      List.not_mem_nil, or_false] at he
    rcases he with he | he | he <;> subst he <;>
      exact ⟨_, rfl, by decide, by decide, by decide⟩
  · intro r c hr hc
    have hg : get2 paraboloidOctave 0 1
        = some (some (siftOfFn 17 11 fun x y => y * y + x * x)) := rfl
    simp only [sampleAt, hg, Option.bind_eq_bind, Option.some_bind]
    rw [siftOfFn_sampleAt 17 11 _ c r hc hr]
    simp only [Option.some_bind, Option.map_some', Option.some.injEq, pure]
    push_cast
    ring

/-! ### Slices at indices that are natural numbers -/

theorem sliceGet_of_eq {α : Type} (xs : List α) (i : Int) (j : Nat) (h : i = (j : Int)) :
    sliceGet xs i = xs[j]? := by
  subst h
  simp [sliceGet]

theorem sliceSet_of_eq {α : Type} (xs : List α) (i : Int) (j : Nat) (v : α)
    (h : i = (j : Int)) (hj : j < xs.length) :
    sliceSet xs i v = some (xs.set j v) := by
  subst h
  simp [sliceSet, hj]

theorem get2_of_eq {α : Type} (pyr : List (List α)) (r i : Int) (a b : Nat) (row : List α)
    (hr : r = (a : Int)) (hi : i = (b : Int)) (hrow : pyr[a]? = some row) :
    get2 pyr r i = row[b]? := by
  simp [get2, sliceGet_of_eq pyr r a hr, hrow, sliceGet_of_eq row i b hi]

theorem set2_of_eq {α : Type} (pyr : List (List α)) (r i : Int) (a b : Nat) (row : List α)
    (v : α) (hr : r = (a : Int)) (hi : i = (b : Int)) (hrow : pyr[a]? = some row)
    (hb : b < row.length) :
    set2 pyr r i v = some (pyr.set a (row.set b v)) := by
  have ha : a < pyr.length := (List.getElem?_eq_some.mp hrow).1
  simp [set2, sliceGet_of_eq pyr r a hr, hrow, sliceSet_of_eq row i b v hi hb,
    sliceSet_of_eq pyr r a _ hr ha]

/-! ### The schedule `sig` -/

/-- The schedule is computed without failure for `intvls = S ≥ 0`, has `S + 3`
entries, and its entries are those of `sigClosed`. -/
theorem sigSchedule_spec {F : Type} [DivisionRing F] (Pow : F → F → F) (Sqrt : F → F)
    (S : Nat) (sigma : F) :
    ∃ sig, sigSchedule Pow Sqrt (S : Int) sigma = some sig ∧ sig.length = S + 3 ∧
      ∀ j, j < S + 3 → sig[j]? = some (sigClosed Pow Sqrt (S : Int) sigma j) := by
  have hn : ((S : Int) + 3).toNat = S + 3 := by omega
  have hmake : make ((S : Int) + 3) (0 : F) = some (List.replicate (S + 3) 0) := by
    have : ¬ ((S : Int) + 3 < 0) := by omega
    simp [make, this, hn]
  have h0 : sliceSet (List.replicate (S + 3) (0 : F)) 0 sigma
      = some ((List.replicate (S + 3) (0 : F)).set 0 sigma) :=
    sliceSet_of_eq _ 0 0 _ (by simp) (by simp)
  have h1 : ∀ v : F, sliceSet ((List.replicate (S + 3) (0 : F)).set 0 sigma) 1 v
      = some (((List.replicate (S + 3) (0 : F)).set 0 sigma).set 1 v) := fun v =>
    sliceSet_of_eq _ 1 1 _ (by simp) (by simp)
  unfold sigSchedule
  simp only [hmake, h0, h1, Option.bind_eq_bind, Option.some_bind]
  have hcount : ((S : Int) + 3 - 2).toNat = S + 1 := by omega
  obtain ⟨sig, hsig, hP⟩ := forLoop_inv
    (fun m (sig : List F) => sig.length = S + 3 ∧
      ∀ j, j < m + 2 → sig[j]? = some (sigClosed Pow Sqrt (S : Int) sigma j))
    2 ((S : Int) + 3)
    (fun i sig => (sliceGet sig (i - 1)).bind fun prev =>
      sliceSet sig i (prev * Pow 2 (1 / ((S : Int) : F))))
    (((List.replicate (S + 3) (0 : F)).set 0 sigma).set 1
      (sigma * Sqrt (Pow 2 (1 / ((S : Int) : F)) * Pow 2 (1 / ((S : Int) : F)) - 1)))
    (by
      refine ⟨by simp, fun j hj => ?_⟩
      have hj2 : j = 0 ∨ j = 1 := by omega
      rcases hj2 with rfl | rfl
      · simp [sigClosed, List.getElem?_set]
      · simp [sigClosed, List.getElem?_set])
    (by
      intro m sig hm ⟨hlen, hval⟩
      rw [hcount] at hm
      have hprev := hval (m + 1) (by omega)
      beta_reduce
      rw [sliceGet_of_eq sig _ (m + 1) (by push_cast; ring), hprev]
      simp only [Option.some_bind]
      rw [sliceSet_of_eq sig _ (m + 2) _ (by push_cast; ring) (by omega)]
      refine ⟨_, rfl, by simpa using hlen, fun j hj => ?_⟩
      rw [List.getElem?_set]
      by_cases hjm : m + 2 = j
      · subst hjm
        simp only [if_true, if_pos (show m + 2 < sig.length by omega)]
        simp [sigClosed, pow_succ, mul_assoc]
      · rw [if_neg hjm]
        exact hval j (by omega))
  refine ⟨sig, hsig, hP.1, fun j hj => hP.2 j ?_⟩
  rw [hcount]
  omega

/-- Sum of the squares of the first `i + 1` entries of the closed form, when
`s^2 = k*k - 1`. -/
theorem sum_sq_closed (σ s k : ℝ) (hs : s ^ 2 = k * k - 1) (i : Nat) :
    ((List.range (i + 1)).map fun j =>
      (if j = 0 then σ else σ * s * k ^ (j - 1)) ^ 2).sum = (σ * k ^ i) ^ 2 := by
  induction i with
  | zero => simp [List.range_succ]
  | succ n ih =>
    rw [List.range_succ, List.map_append, List.sum_append, ih]
    simp only [List.map_cons, List.map_nil, List.sum_cons, List.sum_nil, add_zero,
      Nat.add_sub_cancel, if_neg (Nat.succ_ne_zero n)]
    have : (σ * s * k ^ n) ^ 2 = σ ^ 2 * (k ^ n) ^ 2 * s ^ 2 := by ring
    rw [this, hs]
    ring

theorem take_eq_map_range {α : Type} (xs : List α) (f : Nat → α) (n : Nat)
    (hn : n ≤ xs.length) (h : ∀ j, j < n → xs[j]? = some (f j)) :
    xs.take n = (List.range n).map f := by
  apply List.ext_getElem?
  intro j
  by_cases hj : j < n
  · rw [List.getElem?_take_of_lt hj, h j hj, List.getElem?_map, List.getElem?_range hj]
    rfl
  · have h1 : (List.take n xs).length ≤ j := by
      rw [List.length_take]; omega
    have h2 : ((List.range n).map f).length ≤ j := by
      rw [List.length_map, List.length_range]; omega
    rw [List.getElem?_eq_none h1, List.getElem?_eq_none h2]

/-! ### C10: cumulative blur of the schedule -/

/-- C10.  Over the reals, with `math.Pow` the real power and `math.Sqrt` the
real square root, for `intvls = S ≥ 1`, `sigma > 0` and `0 ≤ i ≤ S + 2` the
schedule `sig` is computed and `sqrt(sig[0]^2 + ... + sig[i]^2)` equals
`sigma * k^i` with `k = 2^(1/S)`. -/
theorem sigSchedule_cumulative_blur (S : Int) (hS : 1 ≤ S) (sigma : ℝ) (hσ : 0 < sigma)
    (i : Nat) (hi : (i : Int) ≤ S + 2) :
    ∃ sig, sigSchedule (fun x y : ℝ => x ^ y) Real.sqrt S sigma = some sig ∧
      (sig.length : Int) = S + 3 ∧
      Real.sqrt (((sig.take (i + 1)).map fun s => s ^ 2).sum)
        = sigma * ((2 : ℝ) ^ (1 / (S : ℝ))) ^ i := by
  obtain ⟨n, rfl⟩ := Int.eq_ofNat_of_zero_le (le_trans (by norm_num) hS)
  obtain ⟨sig, hsig, hlen, hval⟩ :=
    sigSchedule_spec (fun x y : ℝ => x ^ y) Real.sqrt n sigma
  refine ⟨sig, hsig, by rw [hlen]; push_cast; ring, ?_⟩
  have hk1 : (1 : ℝ) ≤ (2 : ℝ) ^ (1 / ((n : Int) : ℝ)) := by
    apply Real.one_le_rpow (by norm_num)
    apply div_nonneg (by norm_num)
    exact_mod_cast (le_trans (by norm_num) hS : (0 : Int) ≤ n)
  have hs : Real.sqrt ((2 : ℝ) ^ (1 / ((n : Int) : ℝ)) * (2 : ℝ) ^ (1 / ((n : Int) : ℝ)) - 1) ^ 2
      = (2 : ℝ) ^ (1 / ((n : Int) : ℝ)) * (2 : ℝ) ^ (1 / ((n : Int) : ℝ)) - 1 := by
    apply Real.sq_sqrt
    nlinarith
  have htake : sig.take (i + 1)
      = (List.range (i + 1)).map (sigClosed (fun x y : ℝ => x ^ y) Real.sqrt (n : Int) sigma) :=
    take_eq_map_range sig _ (i + 1) (by omega) fun j hj => hval j (by omega)
  rw [htake, List.map_map]
  have hsum := sum_sq_closed sigma _ _ hs i
  have hfun : ((fun s : ℝ => s ^ 2) ∘
      sigClosed (fun x y : ℝ => x ^ y) Real.sqrt (n : Int) sigma)
      = fun j => (if j = 0 then sigma else sigma
          * Real.sqrt ((2 : ℝ) ^ (1 / ((n : Int) : ℝ)) * (2 : ℝ) ^ (1 / ((n : Int) : ℝ)) - 1)
          * ((2 : ℝ) ^ (1 / ((n : Int) : ℝ))) ^ (j - 1)) ^ 2 := by
    funext j
    simp [sigClosed]
  rw [hfun, hsum]
  apply Real.sqrt_sq
  apply mul_nonneg hσ.le
  apply pow_nonneg
  linarith

/-- Instance of C10 at the default `S = 3`, with `sigma = 1` and `i = 2`. -/
theorem sigSchedule_cumulative_blur_witness :
    ∃ sig, sigSchedule (fun x y : ℝ => x ^ y) Real.sqrt 3 1 = some sig ∧
      (sig.length : Int) = 3 + 3 ∧
      Real.sqrt (((sig.take (2 + 1)).map fun s => s ^ 2).sum)
        = 1 * ((2 : ℝ) ^ (1 / ((3 : Int) : ℝ))) ^ 2 :=
  sigSchedule_cumulative_blur 3 (by norm_num) 1 (by norm_num) 2 (by norm_num)

/-! ### The loops of `build_gauss_pyr` -/

section Pyramid

variable {Img F : Type} (GaussianSmooth : Img → F → Int → Img)
  (bounds : Img → Rectangle) (Resize : Int → Int → Img → Img) (srcImg : Img)

theorem gaussRow_get (S : Nat) (sig : Nat → F) (o i : Nat) (hi : i < S + 3) :
    (gaussRow GaussianSmooth bounds Resize srcImg S sig o)[i]?
      = some (some (gaussImg GaussianSmooth bounds Resize srcImg S sig o i)) := by
  unfold gaussRow
  rw [List.getElem?_map, List.getElem?_range hi]
  rfl

theorem eq_gaussRow (S : Nat) (sig : Nat → F) (o : Nat) (rowl : List (Option Img))
    (hlen : rowl.length = S + 3)
    (h : ∀ j, j < S + 3 → rowl[j]?
      = some (some (gaussImg GaussianSmooth bounds Resize srcImg S sig o j))) :
    rowl = gaussRow GaussianSmooth bounds Resize srcImg S sig o := by
  have := take_eq_map_range rowl
    (fun j => some (gaussImg GaussianSmooth bounds Resize srcImg S sig o j)) (S + 3)
    (by omega) h
  rw [← hlen, List.take_length] at this
  rw [this, hlen]
  rfl

/-- Entry `[o][i]` of a pyramid made of the rows of the closed form. -/
theorem get2_of_gaussRows (S : Nat) (sig : Nat → F) (N : Nat)
    (pyr : List (List (Option Img)))
    (hrows : ∀ o, o < N → pyr[o]?
      = some (gaussRow GaussianSmooth bounds Resize srcImg S sig o))
    (o i : Nat) (ho : o < N) (hi : i < S + 3) (a b : Int) (ha : a = (o : Int))
    (hb : b = (i : Int)) :
    get2 pyr a b = some (some (gaussImg GaussianSmooth bounds Resize srcImg S sig o i)) := by
  rw [get2_of_eq pyr a b o i _ ha hb (hrows o ho),
    gaussRow_get GaussianSmooth bounds Resize srcImg S sig o i hi]

variable [DivisionRing F]

/-- The inner loop of `build_gauss_pyr` for the octave `r`: started on a pyramid
whose row `r` is fresh and whose row `r - 1` (if any) is complete, it does not
fail, fills row `r` with the images of the closed form and leaves the other rows
as they are. -/
theorem gauss_inner_loop (S : Nat) (sig : List F) (hsig : sig.length = S + 3) (r : Nat)
    (pyr1 : List (List (Option Img)))
    (hr : pyr1[r]? = some (List.replicate (S + 3) none))
    (hprev : ∀ q, r = q + 1 → pyr1[q]?
      = some (gaussRow GaussianSmooth bounds Resize srcImg S (fun j => sig.getD j 0) q)) :
    ∃ p, forLoop 0 ((S : Int) + 3)
        (fun i p => gaussStep GaussianSmooth bounds Resize srcImg (S : Int) sig (r : Int) i p)
        pyr1 = some p ∧
      p.length = pyr1.length ∧ (∀ q, q ≠ r → p[q]? = pyr1[q]?) ∧
      p[r]? = some (gaussRow GaussianSmooth bounds Resize srcImg S (fun j => sig.getD j 0) r) := by
  have hcount : ((S : Int) + 3 - 0).toNat = S + 3 := by omega
  obtain ⟨p, hp, hlen, hother, rowl, hrow, hrl, hval⟩ := forLoop_inv
    (fun m (p : List (List (Option Img))) => p.length = pyr1.length ∧
      (∀ q, q ≠ r → p[q]? = pyr1[q]?) ∧
      ∃ rowl, p[r]? = some rowl ∧ rowl.length = S + 3 ∧
        ∀ j, j < m → rowl[j]? = some (some
          (gaussImg GaussianSmooth bounds Resize srcImg S (fun j => sig.getD j 0) r j)))
    0 ((S : Int) + 3)
    (fun i p => gaussStep GaussianSmooth bounds Resize srcImg (S : Int) sig (r : Int) i p)
    pyr1
    ⟨rfl, fun _ _ => rfl, _, hr, by simp, fun j hj => absurd hj (Nat.not_lt_zero j)⟩
    (by
      intro m p hm ⟨hlen, hother, rowl, hrow, hrl, hval⟩
      rw [hcount] at hm
      have hrp : r < p.length := (List.getElem?_eq_some.mp hrow).1
      -- the state after writing the image `v` at `[r][m]`
      have hnext : ∀ v, v = gaussImg GaussianSmooth bounds Resize srcImg S
            (fun j => sig.getD j 0) r m →
          (p.set r (rowl.set m (some v))).length = pyr1.length ∧
          (∀ q, q ≠ r → (p.set r (rowl.set m (some v)))[q]? = pyr1[q]?) ∧
          ∃ rowl1, (p.set r (rowl.set m (some v)))[r]? = some rowl1 ∧
            rowl1.length = S + 3 ∧
            ∀ j, j < m + 1 → rowl1[j]? = some (some
              (gaussImg GaussianSmooth bounds Resize srcImg S (fun j => sig.getD j 0) r j)) := by
        intro v hv
        refine ⟨by simpa using hlen, fun q hq => ?_, rowl.set m (some v), ?_, by simpa using hrl,
          fun j hj => ?_⟩
        · rw [List.getElem?_set, if_neg (Ne.symm hq)]
          exact hother q hq
        · rw [List.getElem?_set, if_pos rfl, if_pos hrp]
        · rw [List.getElem?_set]
          by_cases hjm : m = j
          · subst hjm
            rw [if_pos rfl, if_pos (by omega), hv]
          · rw [if_neg hjm]
            exact hval j (by omega)
      have hset : ∀ v, set2 p (r : Int) (0 + (m : Int)) (some v)
          = some (p.set r (rowl.set m (some v))) := fun v =>
        set2_of_eq p _ _ r m rowl _ rfl (by simp) hrow (by omega)
      beta_reduce
      unfold gaussStep
      by_cases hm0 : m = 0
      · subst hm0
        by_cases hr0 : r = 0
        · subst hr0
          rw [if_pos (by simp), hset]
          exact ⟨_, rfl, hnext _ rfl⟩
        · obtain ⟨q, rfl⟩ := Nat.exists_eq_succ_of_ne_zero hr0
          rw [if_neg (by simp; omega), if_pos (by simp)]
          have hq : p[q]? = some (gaussRow GaussianSmooth bounds Resize srcImg S
              (fun j => sig.getD j 0) q) := by
            rw [hother q (by omega)]
            exact hprev q rfl
          rw [get2_of_eq p _ _ q S _ (by push_cast; ring) rfl hq,
            gaussRow_get GaussianSmooth bounds Resize srcImg S _ q S (by omega)]
          simp only [Option.bind_eq_bind, Option.some_bind]
          rw [hset]
          exact ⟨_, rfl, hnext _ rfl⟩
      · obtain ⟨k, rfl⟩ := Nat.exists_eq_succ_of_ne_zero hm0
        rw [if_neg (by simp; omega), if_neg (by simp; omega)]
        rw [get2_of_eq p _ _ r k rowl rfl (by push_cast; ring) hrow, hval k (by omega)]
        have hs : sliceGet sig (0 + ((k + 1 : Nat) : Int)) = some (sig.getD (k + 1) 0) := by
          rw [sliceGet_of_eq sig _ (k + 1) (by simp)]
          rw [List.getD_eq_getElem?_getD]
          have hk : k + 1 < sig.length := by omega
          rw [List.getElem?_eq_getElem hk]
          rfl
        simp only [Option.bind_eq_bind, Option.some_bind, hs]
        rw [hset]
        exact ⟨_, rfl, hnext _ rfl⟩)
  rw [hcount] at hval
  exact ⟨p, hp, hlen, hother, by
    rw [hrow, eq_gaussRow GaussianSmooth bounds Resize srcImg S _ r rowl hrl hval]⟩

/-- The function `build_gauss_pyr` for `octvs = N ≥ 0` and `intvls = S ≥ 0`: it
does not fail and returns the `N` rows of the closed form. -/
theorem build_gauss_pyr_spec (Pow : F → F → F) (Sqrt : F → F) (N S : Nat) (sigma : F) :
    ∃ sig pyr, sigSchedule Pow Sqrt (S : Int) sigma = some sig ∧ sig.length = S + 3 ∧
      build_gauss_pyr Pow Sqrt GaussianSmooth bounds Resize srcImg (N : Int) (S : Int) sigma
        = some pyr ∧
      pyr.length = N ∧
      ∀ o, o < N → pyr[o]?
        = some (gaussRow GaussianSmooth bounds Resize srcImg S (fun j => sig.getD j 0) o) := by
  obtain ⟨sig, hsig, hlen, -⟩ := sigSchedule_spec Pow Sqrt S sigma
  have hmakeN : make (N : Int) ([] : List (Option Img)) = some (List.replicate N []) := by
    have : ¬ ((N : Int) < 0) := by omega
    simp [make, this]
  have hmakeS : make ((S : Int) + 3) (none : Option Img)
      = some (List.replicate (S + 3) none) := by
    have : ¬ ((S : Int) + 3 < 0) := by omega
    have hn : ((S : Int) + 3).toNat = S + 3 := by omega
    simp [make, this, hn]
  have hcount : ((N : Int) - 0).toNat = N := by omega
  obtain ⟨pyr, hpyr, hl, hrows⟩ := forLoop_inv
    (fun m (pyr : List (List (Option Img))) => pyr.length = N ∧
      ∀ o, o < m → pyr[o]?
        = some (gaussRow GaussianSmooth bounds Resize srcImg S (fun j => sig.getD j 0) o))
    0 (N : Int)
    (fun row pyr =>
      (make ((S : Int) + 3) (none : Option Img)).bind fun fresh =>
      (sliceSet pyr row fresh).bind fun pyr1 =>
      forLoop 0 ((S : Int) + 3)
        (fun i p => gaussStep GaussianSmooth bounds Resize srcImg (S : Int) sig row i p) pyr1)
    (List.replicate N [])
    ⟨by simp, fun o ho => absurd ho (Nat.not_lt_zero o)⟩
    (by
      intro m pyr hm ⟨hl, hrows⟩
      rw [hcount] at hm
      beta_reduce
      rw [hmakeS]
      simp only [Option.some_bind]
      rw [sliceSet_of_eq pyr _ m _ (by simp) (by omega)]
      simp only [Option.some_bind, zero_add]
      obtain ⟨p, hp, hpl, hother, hrow⟩ := gauss_inner_loop GaussianSmooth bounds Resize
        srcImg S sig hlen m (pyr.set m (List.replicate (S + 3) none))
        (by rw [List.getElem?_set, if_pos rfl, if_pos (by omega)])
        (by
          intro q hq
          rw [List.getElem?_set, if_neg (by omega)]
          exact hrows q (by omega))
      refine ⟨p, hp, by simpa [hl] using hpl, fun o ho => ?_⟩
      by_cases hom : o = m
      · subst hom
        exact hrow
      · rw [hother o hom, List.getElem?_set, if_neg (Ne.symm hom)]
        exact hrows o (by omega))
  rw [hcount] at hrows
  refine ⟨sig, pyr, hsig, hlen, ?_, hl, hrows⟩
  unfold build_gauss_pyr
  simp only [hsig, hmakeN, Option.bind_eq_bind, Option.some_bind]
  exact hpyr

end Pyramid

/-! ### C8: shape and entries of the Gaussian pyramid -/

theorem sliceGet_getD {F : Type} [Zero F] (sig : List F) (i : Nat) (hi : i < sig.length)
    (a : Int) (ha : a = (i : Int)) : sliceGet sig a = some (sig.getD i 0) := by
  rw [sliceGet_of_eq sig a i ha, List.getD_eq_getElem?_getD, List.getElem?_eq_getElem hi]
  rfl

/-- C8.  For `octvs ≥ 0` and `intvls ≥ 1`, `build_gauss_pyr` returns `octvs` rows
of `intvls + 3` entries; entry `[0][0]` is the base image, entry `[o][i]` for
`i ≥ 1` is `GaussianSmooth(entry [o][i-1], sig[i], 3)`, and entry `[o][0]` for
`o ≥ 1` is `downsample(entry [o-1][intvls])`.  Smoothing and resizing are
arbitrary functions. -/
theorem build_gauss_pyr_shape_entries {Img F : Type} [DivisionRing F]
    (Pow : F → F → F) (Sqrt : F → F) (GaussianSmooth : Img → F → Int → Img)
    (bounds : Img → Rectangle) (Resize : Int → Int → Img → Img) (srcImg : Img)
    (octvs intvls : Int) (sigma : F) (ho : 0 ≤ octvs) (hi : 1 ≤ intvls) :
    ∃ sig pyr, sigSchedule Pow Sqrt intvls sigma = some sig ∧
      build_gauss_pyr Pow Sqrt GaussianSmooth bounds Resize srcImg octvs intvls sigma
        = some pyr ∧
      (pyr.length : Int) = octvs ∧
      (∀ row ∈ pyr, (row.length : Int) = intvls + 3) ∧
      (0 < octvs → get2 pyr 0 0 = some (some srcImg)) ∧
      (∀ o i : Int, 0 ≤ o → o < octvs → 1 ≤ i → i < intvls + 3 →
        ∃ prev s, get2 pyr o (i - 1) = some (some prev) ∧ sliceGet sig i = some s ∧
          get2 pyr o i = some (some (GaussianSmooth prev s 3))) ∧
      (∀ o : Int, 1 ≤ o → o < octvs →
        ∃ prev, get2 pyr (o - 1) intvls = some (some prev) ∧
          get2 pyr o 0 = some (some (downsample bounds Resize prev))) := by
  obtain ⟨N, rfl⟩ := Int.eq_ofNat_of_zero_le ho
  obtain ⟨S, rfl⟩ := Int.eq_ofNat_of_zero_le (le_trans (by norm_num) hi)
  obtain ⟨sig, pyr, hsig, hlen, hpyr, hl, hrows⟩ :=
    build_gauss_pyr_spec GaussianSmooth bounds Resize srcImg Pow Sqrt N S sigma
  have hget := get2_of_gaussRows GaussianSmooth bounds Resize srcImg S
    (fun j => sig.getD j 0) N pyr hrows
  refine ⟨sig, pyr, hsig, hpyr, by rw [hl], ?_, ?_, ?_, ?_⟩
  · intro row hrow
    obtain ⟨o, hoN, rfl⟩ := List.mem_iff_getElem.mp hrow
    have h1 := hrows o (by omega)
    rw [List.getElem?_eq_getElem hoN] at h1
    rw [Option.some.inj h1]
    simp [gaussRow]
  · intro hpos
    exact hget 0 0 (by omega) (by omega) 0 0 rfl rfl
  · intro o i ho0 hoN hi1 hiS
    obtain ⟨a, rfl⟩ := Int.eq_ofNat_of_zero_le ho0
    obtain ⟨b, rfl⟩ := Int.eq_ofNat_of_zero_le (le_trans (by norm_num) hi1)
    obtain ⟨k, rfl⟩ : ∃ k, b = k + 1 := ⟨b - 1, by omega⟩
    exact ⟨_, _, hget a k (by omega) (by omega) _ _ rfl (by push_cast; ring),
      sliceGet_getD sig (k + 1) (by omega) _ rfl,
      hget a (k + 1) (by omega) (by omega) _ _ rfl rfl⟩
  · intro o ho1 hoN
    obtain ⟨a, rfl⟩ := Int.eq_ofNat_of_zero_le (le_trans (by norm_num) ho1)
    obtain ⟨q, rfl⟩ : ∃ q, a = q + 1 := ⟨a - 1, by omega⟩
    exact ⟨_, hget q S (by omega) (by omega) _ _ (by push_cast; ring) rfl,
      hget (q + 1) 0 (by omega) (by omega) _ _ rfl rfl⟩

/-- Instance of C8 for two octaves and three intervals per octave, on images
represented by their bounds. -/
theorem build_gauss_pyr_shape_entries_witness :
    ∃ sig pyr, sigSchedule (fun x _ : ℚ => x) (fun x => x) 3 (8 / 5) = some sig ∧
      build_gauss_pyr (fun x _ : ℚ => x) (fun x => x) keepBounds (fun img => img)
        resizeBounds (rect0 8 6) 2 3 (8 / 5) = some pyr ∧
      (pyr.length : Int) = 2 ∧
      (∀ row ∈ pyr, (row.length : Int) = 3 + 3) ∧
      ((0 : Int) < 2 → get2 pyr 0 0 = some (some (rect0 8 6))) ∧
      (∀ o i : Int, 0 ≤ o → o < 2 → 1 ≤ i → i < 3 + 3 →
        ∃ prev s, get2 pyr o (i - 1) = some (some prev) ∧ sliceGet sig i = some s ∧
          get2 pyr o i = some (some (keepBounds prev s 3))) ∧
      (∀ o : Int, 1 ≤ o → o < 2 →
        ∃ prev, get2 pyr (o - 1) 3 = some (some prev) ∧
          get2 pyr o 0 = some (some (downsample (fun img => img) resizeBounds prev))) :=
  build_gauss_pyr_shape_entries (fun x _ : ℚ => x) (fun x => x) keepBounds (fun img => img)
    resizeBounds (rect0 8 6) 2 3 (8 / 5) (by norm_num) (by norm_num)

/-! ### C9: dimensions of the images of the pyramid -/

theorem tdiv_two_pow (W : Int) (hW : 0 ≤ W) (o : Nat) :
    (W / 2 ^ o).tdiv 2 = W / 2 ^ (o + 1) := by
  obtain ⟨w, rfl⟩ := Int.eq_ofNat_of_zero_le hW
  rw [Int.tdiv_eq_ediv (Int.ediv_nonneg (Int.ofNat_nonneg w) (by positivity)) (by norm_num)]
  norm_cast
  rw [Nat.div_div_eq_div_mul, pow_succ]

/-- Dimensions of the images of the closed form, when smoothing keeps the
dimensions and resizing returns the requested ones. -/
theorem gaussImg_dims {Img F : Type} (GaussianSmooth : Img → F → Int → Img)
    (bounds : Img → Rectangle) (Resize : Int → Int → Img → Img) (srcImg : Img)
    (S : Nat) (sig : Nat → F) (W H : Int) (hW : 0 ≤ W) (hH : 0 ≤ H)
    (hsrc : (bounds srcImg).Dx = W ∧ (bounds srcImg).Dy = H)
    (hsmooth : ∀ img s n, (bounds (GaussianSmooth img s n)).Dx = (bounds img).Dx ∧
      (bounds (GaussianSmooth img s n)).Dy = (bounds img).Dy)
    (hresize : ∀ w h img, (bounds (Resize w h img)).Dx = w ∧ (bounds (Resize w h img)).Dy = h)
    (o i : Nat) :
    (bounds (gaussImg GaussianSmooth bounds Resize srcImg S sig o i)).Dx = W / 2 ^ o ∧
    (bounds (gaussImg GaussianSmooth bounds Resize srcImg S sig o i)).Dy = H / 2 ^ o := by
  have hrun : ∀ (base : Img) (i : Nat),
      (bounds (smoothRun GaussianSmooth sig base i)).Dx = (bounds base).Dx ∧
      (bounds (smoothRun GaussianSmooth sig base i)).Dy = (bounds base).Dy := by
    intro base i
    induction i with
    | zero => exact ⟨rfl, rfl⟩
    | succ k ih =>
      have h := hsmooth (smoothRun GaussianSmooth sig base k) (sig (k + 1)) 3
      exact ⟨by rw [smoothRun, h.1, ih.1], by rw [smoothRun, h.2, ih.2]⟩
  have hbase : ∀ o : Nat,
      (bounds (octaveBase GaussianSmooth bounds Resize srcImg S sig o)).Dx = W / 2 ^ o ∧
      (bounds (octaveBase GaussianSmooth bounds Resize srcImg S sig o)).Dy = H / 2 ^ o := by
    intro o
    induction o with
    | zero => simpa [octaveBase] using hsrc
    | succ q ih =>
      have h := hrun (octaveBase GaussianSmooth bounds Resize srcImg S sig q) S
      refine ⟨?_, ?_⟩
      · rw [octaveBase, downsample, (hresize _ _ _).1, h.1, ih.1, tdiv_two_pow W hW q]
      · rw [octaveBase, downsample, (hresize _ _ _).2, h.2, ih.2, tdiv_two_pow H hH q]
  unfold gaussImg
  exact ⟨by rw [(hrun _ i).1, (hbase o).1], by rw [(hrun _ i).2, (hbase o).2]⟩

/-- C9.  When smoothing keeps the dimensions of an image and resizing returns an
image of the requested dimensions, `build_gauss_pyr` on a base image of size
`W x H` returns a pyramid in which every image `[o][i]`, `0 ≤ o < octvs`,
`0 ≤ i < intvls + 3`, has width `floor(W / 2^o)` and height `floor(H / 2^o)`. -/
theorem build_gauss_pyr_dims {Img F : Type} [DivisionRing F]
    (Pow : F → F → F) (Sqrt : F → F) (GaussianSmooth : Img → F → Int → Img)
    (bounds : Img → Rectangle) (Resize : Int → Int → Img → Img) (srcImg : Img)
    (octvs intvls : Int) (sigma : F) (W H : Int)
    (ho : 0 ≤ octvs) (hi : 0 ≤ intvls) (hW : 0 ≤ W) (hH : 0 ≤ H)
    (hsrc : (bounds srcImg).Dx = W ∧ (bounds srcImg).Dy = H)
    (hsmooth : ∀ img s n, (bounds (GaussianSmooth img s n)).Dx = (bounds img).Dx ∧
      (bounds (GaussianSmooth img s n)).Dy = (bounds img).Dy)
    (hresize : ∀ w h img, (bounds (Resize w h img)).Dx = w ∧
      (bounds (Resize w h img)).Dy = h) :
    ∃ pyr, build_gauss_pyr Pow Sqrt GaussianSmooth bounds Resize srcImg octvs intvls sigma
        = some pyr ∧
      ∀ o i : Int, 0 ≤ o → o < octvs → 0 ≤ i → i < intvls + 3 →
        ∃ img, get2 pyr o i = some (some img) ∧
          (bounds img).Dx = W / 2 ^ o.toNat ∧ (bounds img).Dy = H / 2 ^ o.toNat := by
  obtain ⟨N, rfl⟩ := Int.eq_ofNat_of_zero_le ho
  obtain ⟨S, rfl⟩ := Int.eq_ofNat_of_zero_le hi
  obtain ⟨sig, pyr, -, -, hpyr, -, hrows⟩ :=
    build_gauss_pyr_spec GaussianSmooth bounds Resize srcImg Pow Sqrt N S sigma
  refine ⟨pyr, hpyr, fun o i ho0 hoN hi0 hiS => ?_⟩
  obtain ⟨a, rfl⟩ := Int.eq_ofNat_of_zero_le ho0
  obtain ⟨b, rfl⟩ := Int.eq_ofNat_of_zero_le hi0
  refine ⟨_, get2_of_gaussRows GaussianSmooth bounds Resize srcImg S
    (fun j => sig.getD j 0) N pyr hrows a b (by omega) (by omega) _ _ rfl rfl, ?_⟩
  simpa using gaussImg_dims GaussianSmooth bounds Resize srcImg S (fun j => sig.getD j 0)
    W H hW hH hsrc hsmooth hresize a b

/-- Instance of C9 for a base image of size 9 x 6, two octaves and three
intervals per octave, on images represented by their bounds. -/
theorem build_gauss_pyr_dims_witness :
    ∃ pyr, build_gauss_pyr (fun x _ : ℚ => x) (fun x => x) keepBounds (fun img => img)
        resizeBounds (rect0 9 6) 2 3 (8 / 5) = some pyr ∧
      ∀ o i : Int, 0 ≤ o → o < 2 → 0 ≤ i → i < 3 + 3 →
        ∃ img, get2 pyr o i = some (some img) ∧
          img.Dx = 9 / 2 ^ o.toNat ∧ img.Dy = 6 / 2 ^ o.toNat :=
  build_gauss_pyr_dims (fun x _ : ℚ => x) (fun x => x) keepBounds (fun img => img)
    resizeBounds (rect0 9 6) 2 3 (8 / 5) 9 6 (by norm_num) (by norm_num) (by norm_num)
    (by norm_num) (by decide) (fun _ _ _ => ⟨rfl, rfl⟩)
    (fun w h _ => by simp [resizeBounds, rect0, Rectangle.Dx, Rectangle.Dy])

/-! ### C13: the contrast gate of the scan -/

theorem foldlM_flatMap {σ α β : Type} (f : α → List β) (g : σ → β → Option σ) (l : List α)
    (s : σ) :
    (l.flatMap f).foldlM g s = l.foldlM (fun st a => (f a).foldlM g st) s := by
  induction l generalizing s with
  | nil => rfl
  | cons a rest ih =>
    rw [List.flatMap_cons, List.foldlM_append, List.foldlM_cons]
    cases (f a).foldlM g s with
    | none => rfl
    | some s1 => exact ih s1

theorem foldlM_map_option {σ α β : Type} (f : α → β) (g : σ → β → Option σ) (l : List α)
    (s : σ) :
    (l.map f).foldlM g s = l.foldlM (fun st a => g st (f a)) s := by
  induction l generalizing s with
  | nil => rfl
  | cons a rest ih =>
    rw [List.map_cons, List.foldlM_cons, List.foldlM_cons]
    cases g s (f a) with
    | none => rfl
    | some s1 => exact ih s1

/-- A loop over groups of positions, each group being produced by a step that
may fail, is the loop over all the positions, provided every group is produced. -/
theorem foldlM_groups {σ α β : Type} (g : α → Option (List β)) (step : σ → β → Option σ)
    (os : List α) (s : σ) :
    os.foldlM (fun st o => (g o).bind fun ps => ps.foldlM step st) s
      = ((allSome (os.map g)).map List.flatten).bind fun ps => ps.foldlM step s := by
  induction os generalizing s with
  | nil => rfl
  | cons o rest ih =>
    rw [List.foldlM_cons, List.map_cons]
    cases hg : g o with
    | none => rfl
    | some ps =>
      simp only [Option.bind_eq_bind, Option.some_bind, allSome]
      cases hr : allSome (rest.map g) with
      | none =>
        cases hp : ps.foldlM step s with
        | none => rfl
        | some s1 =>
          simp only [Option.some_bind, Option.map_none', Option.none_bind]
          rw [ih s1, hr]
          rfl
      | some pss =>
        simp only [Option.map_some', Option.some_bind, List.flatten_cons, List.foldlM_append]
        cases hp : ps.foldlM step s with
        | none => rfl
        | some s1 =>
          simp only [Option.some_bind, Option.bind_eq_bind]
          rw [ih s1, hr]
          rfl

/-- A loop that reads a value at every position and lets the positions whose
value passes a gate proceed to a step is the loop of that step over the
positions whose value passes the gate, provided every read succeeds. -/
theorem foldlM_gate {σ β γ : Type} (read : β → Option γ) (gate : γ → Bool)
    (inv : σ → β → Option σ) (ps : List β) (s : σ) :
    ps.foldlM (fun st p => (read p).bind fun v => if gate v = true then inv st p else some st) s
      = (allSome (ps.map fun p => (read p).map fun v => (p, v))).bind fun pvs =>
          ((pvs.filter fun pv => gate pv.2).map fun pv => pv.1).foldlM inv s := by
  induction ps generalizing s with
  | nil => rfl
  | cons p rest ih =>
    rw [List.foldlM_cons, List.map_cons]
    cases hr : read p with
    | none => rfl
    | some v =>
      simp only [Option.bind_eq_bind, Option.some_bind, Option.map_some', allSome]
      cases hrest : allSome (rest.map fun p => (read p).map fun v => (p, v)) with
      | none =>
        by_cases hg : gate v = true
        · simp only [hg, if_true]
          cases hi : inv s p with
          | none => rfl
          | some s1 =>
            simp only [Option.some_bind, Option.map_none', Option.none_bind]
            rw [ih s1, hrest]
            rfl
        · have hg1 : gate v = false := by simpa using hg
          simp only [hg1, Bool.false_eq_true, if_false, Option.some_bind, Option.map_none',
            Option.none_bind]
          rw [ih s, hrest]
          rfl
      | some pvs =>
        by_cases hg : gate v = true
        · simp only [hg, if_true, Option.map_some', Option.some_bind, List.filter_cons,
            List.map_cons, List.foldlM_cons]
          cases hi : inv s p with
          | none => rfl
          | some s1 =>
            simp only [Option.some_bind, Option.bind_eq_bind]
            rw [ih s1, hrest]
            rfl
        · have hg1 : gate v = false := by simpa using hg
          simp only [hg1, Bool.false_eq_true, if_false, Option.map_some', Option.some_bind,
            List.filter_cons]
          rw [ih s, hrest]
          rfl

theorem scanBody_eq_gate (dog_pyr : List (List (Option SiftImage))) (octvs intvls : Int)
    (prelim : ℚ) (calls : List (Int × Int × Int × Int)) (p : Int × Int × Int × Int) :
    scanBody dog_pyr octvs intvls prelim p.1 p.2.1 p.2.2.1 p.2.2.2 calls
      = (dogSample dog_pyr p.1 p.2.1 p.2.2.1 p.2.2.2).bind fun v =>
          if passesGate prelim v = true then neighbourTest dog_pyr octvs intvls calls p
          else some calls := by
  unfold scanBody passesGate neighbourTest
  cases dogSample dog_pyr p.1 p.2.1 p.2.2.1 p.2.2.2 with
  | none => rfl
  | some v =>
    simp only [Option.bind_eq_bind, Option.some_bind, decide_eq_true_eq]
    split
    · cases is_extremum dog_pyr octvs intvls p.2.2.1 p.2.2.2 <;> rfl
    · rfl

theorem scanOctave_eq_foldlM (dog_pyr : List (List (Option SiftImage))) (octvs intvls : Int)
    (prelim : ℚ) (o : Int) (calls : List (Int × Int × Int × Int)) :
    scanOctave dog_pyr octvs intvls prelim o calls
      = ((get2 dog_pyr o 0).bind fun e =>
          e.map fun img => scannedInOctave o intvls img.Bounds).bind fun ps =>
          ps.foldlM (fun st p =>
            scanBody dog_pyr octvs intvls prelim p.1 p.2.1 p.2.2.1 p.2.2.2 st) calls := by
  unfold scanOctave
  cases get2 dog_pyr o 0 with
  | none => rfl
  | some e =>
    cases e with
    | none => rfl
    | some img =>
      simp only [Option.bind_eq_bind, Option.some_bind, Option.map_some', forLoop,
        scannedInOctave, foldlM_flatMap, foldlM_map_option, SiftImage.Bounds,
        add_sub_cancel_right]

/-- C13.  `scale_space_extrema` is the scan that the specification states: with
`S = len(dog_pyr[0]) - 2` and `prelim = 0.5 * contr_thr / S * 256`, it reads the
sample at every scanned position, and the positions that proceed to the
neighbour test are those whose sample `v` passes the gate, all of them and in
the order of the scan.  A sample passes the gate exactly when `|v| > prelim`;
a sample with `|v| = prelim` does not.  For `contr_thr = 0.04` and `S = 3` an
integer sample passes exactly when `|v| ≥ 2`. -/
theorem scale_space_extrema_contrast_gate :
    (∀ (dog_pyr : List (List (Option SiftImage))) (contr_thr : ℚ) (curv_thr : Int),
      scale_space_extrema dog_pyr contr_thr curv_thr = gatedScan dog_pyr contr_thr) ∧
    (∀ prelim v : ℚ, passesGate prelim v = true ↔ |v| > prelim) ∧
    (∀ v : ℚ, passesGate |v| v = false) ∧
    (∀ n : Int, passesGate (0.5 * (4 / 100) / (((3 : Int)) : ℚ) * 256) (n : ℚ) = true
      ↔ 2 ≤ |n|) := by
  refine ⟨?_, ?_, ?_, ?_⟩
  · intro dog_pyr contr_thr curv_thr
    unfold scale_space_extrema gatedScan
    cases sliceGet dog_pyr 0 with
    | none => rfl
    | some row0 =>
      simp only [Option.bind_eq_bind, Option.some_bind]
      have hloop : forLoop 0 (dog_pyr.length : Int) (fun o calls =>
            scanOctave dog_pyr (dog_pyr.length : Int) ((row0.length : Int) - 2)
              (prelim_contr_thr contr_thr ((row0.length : Int) - 2)) o calls) []
          = (List.range dog_pyr.length).foldlM (fun st (o : Nat) =>
              ((get2 dog_pyr (o : Int) 0).bind fun e =>
                e.map fun img => scannedInOctave (o : Int) ((row0.length : Int) - 2)
                  img.Bounds).bind fun ps =>
                ps.foldlM (fun st p =>
                  scanBody dog_pyr (dog_pyr.length : Int) ((row0.length : Int) - 2)
                    (prelim_contr_thr contr_thr ((row0.length : Int) - 2))
                    p.1 p.2.1 p.2.2.1 p.2.2.2 st) st) [] := by
        unfold forLoop
        simp only [sub_zero, Int.toNat_ofNat, zero_add, scanOctave_eq_foldlM]
      rw [hloop, foldlM_groups]
      have hstep : (fun (st : List (Int × Int × Int × Int)) (p : Int × Int × Int × Int) =>
            scanBody dog_pyr (dog_pyr.length : Int) ((row0.length : Int) - 2)
              (prelim_contr_thr contr_thr ((row0.length : Int) - 2))
              p.1 p.2.1 p.2.2.1 p.2.2.2 st)
          = fun st p => (dogSample dog_pyr p.1 p.2.1 p.2.2.1 p.2.2.2).bind fun v =>
              if passesGate (prelim_contr_thr contr_thr ((row0.length : Int) - 2)) v = true
              then neighbourTest dog_pyr (dog_pyr.length : Int) ((row0.length : Int) - 2) st p
              else some st := by
        funext st p
        exact scanBody_eq_gate _ _ _ _ _ _
      rw [hstep]
      simp only [foldlM_gate]
      unfold scannedSamples scannedPositions prelim_contr_thr
      rw [Option.bind_assoc]
  · intro prelim v
    unfold passesGate
    simp
  · intro v
    unfold passesGate
    simp
  · intro n
    unfold passesGate
    have hp : (0.5 * (4 / 100) / (((3 : Int)) : ℚ) * 256 : ℚ) = 128 / 75 := by norm_num
    rw [hp, decide_eq_true_eq]
    constructor
    · intro h
      by_contra hlt
      have h1 : |n| ≤ 1 := by omega
      have h2 : |(n : ℚ)| ≤ 1 := by exact_mod_cast h1
      have : (128 : ℚ) / 75 < 1 := lt_of_lt_of_le h h2
      norm_num at this
    · intro h
      have h2 : (2 : ℚ) ≤ |(n : ℚ)| := by exact_mod_cast h
      have : (128 : ℚ) / 75 < 2 := by norm_num
      exact lt_of_lt_of_le this h2

set_option maxRecDepth 100000 in
/-- Instance of C13 on `scanOctave11` (`S = 1`, `contr_thr = 0.04`, so
`prelim = 5.12`): the scan reads the single sample 7 at `(0, 1, 5, 5)`, which
passes the gate, while a sample equal to the gate value does not. -/
theorem scale_space_extrema_contrast_gate_witness :
    scannedSamples scanOctave11 1 = some [((0, 1, 5, 5), 7)] ∧
    scale_space_extrema scanOctave11 (4 / 100) 10 = gatedScan scanOctave11 (4 / 100) ∧
    passesGate (0.5 * (4 / 100) / (((1 : Int)) : ℚ) * 256) 7 = true ∧
    passesGate |(128 / 25 : ℚ)| (128 / 25) = false ∧
    (passesGate (0.5 * (4 / 100) / (((3 : Int)) : ℚ) * 256) (((2 : Int)) : ℚ) = true
      ↔ (2 : Int) ≤ |(2 : Int)|) :=
  ⟨by decide, scale_space_extrema_contrast_gate.1 scanOctave11 (4 / 100) 10,
    (scale_space_extrema_contrast_gate.2.1 _ _).mpr (by norm_num),
    scale_space_extrema_contrast_gate.2.2.1 (128 / 25),
    scale_space_extrema_contrast_gate.2.2.2 2⟩

/-! ### C18: the arguments of the neighbour test in the scan -/

set_option maxRecDepth 100000 in
/-- C18, evaluated at the failing input `scanOctave11` (one octave, `S = 1`,
three 11 x 11 images of constant sample 7).  At the only scanned position
`(o, i, r, c) = (0, 1, 5, 5)` the sample passes the gate; `is_extremum` at
`(0, 1, 5, 5)` would answer true, but the loop body invokes it with
`octv = octvs = 1` and `intvl = intvls = 1`, which indexes `dog_pyr[1]` of a
pyramid of one octave: the invocation fails, and so does the whole scan. -/
theorem scale_space_extrema_passes_counts_not_indices :
    dogSample scanOctave11 0 1 5 5 = some 7 ∧
    |(7 : ℚ)| > prelim_contr_thr (4 / 100) 1 ∧
    is_extremum scanOctave11 0 1 5 5 = some true ∧
    scanBody scanOctave11 1 1 (prelim_contr_thr (4 / 100) 1) 0 1 5 5 []
      = (is_extremum scanOctave11 1 1 5 5).map (fun _ => [((1 : Int), (1 : Int), (5 : Int), (5 : Int))]) ∧
    is_extremum scanOctave11 1 1 5 5 = none ∧
    scale_space_extrema scanOctave11 (4 / 100) 10 = none := by
  have hv : dogSample scanOctave11 0 1 5 5 = some 7 := by decide
  have hgate : |(7 : ℚ)| > prelim_contr_thr (4 / 100) 1 := by
    unfold prelim_contr_thr
    norm_num
  have hcall : is_extremum scanOctave11 1 1 5 5 = none := by decide
  have hbody : scanBody scanOctave11 1 1 (prelim_contr_thr (4 / 100) 1) 0 1 5 5 [] = none := by
    unfold scanBody
    simp only [hv, Option.bind_eq_bind, Option.some_bind, if_pos hgate, hcall,
      Option.none_bind]
  refine ⟨hv, hgate, by decide, by rw [hbody, hcall]; rfl, hcall, ?_⟩
  have hrow : sliceGet scanOctave11 0 = some
      [some (siftOfFn 11 11 fun _ _ => 7), some (siftOfFn 11 11 fun _ _ => 7),
        some (siftOfFn 11 11 fun _ _ => 7)] := by decide
  have hget : get2 scanOctave11 0 0 = some (some (siftOfFn 11 11 fun _ _ => 7)) := by decide
  have hcast : (((([some (siftOfFn 11 11 fun _ _ => 7), some (siftOfFn 11 11 fun _ _ => 7),
        some (siftOfFn 11 11 fun _ _ => 7)] : List (Option SiftImage)).length : Nat) : Int) - 2)
      = 1 := by decide
  have hlen : ((scanOctave11.length : Nat) : Int) = 1 := by decide
  have hdy : ((siftOfFn 11 11 fun _ _ => 7).Bounds.Dy - 5 - 5).toNat = 1 := by decide
  have hdx : ((siftOfFn 11 11 fun _ _ => 7).Bounds.Dx - 5 - 5).toNat = 1 := by decide
  have hr1 : List.range 1 = [0] := rfl
  unfold scale_space_extrema
  simp only [hrow, Option.bind_eq_bind, Option.some_bind, hcast, hlen]
  simp only [forLoop, scanOctave, show ((1 : Int) - 0).toNat = 1 by decide,
    show ((1 : Int) + 1 - 1).toNat = 1 by decide, hr1, List.foldlM_cons, List.foldlM_nil,
    Nat.cast_zero, add_zero, Option.bind_eq_bind, hget, Option.some_bind, hdy, hdx, hbody,
    Option.none_bind]

/-! ### C19: which element `pixval32f` reads -/

/-- C19, evaluated at the failing input: the 2 x 2 image with origin `(0, 0)`,
`Stride = 8` and `Pix[n] = n`, row `r = 0`, column `c = 1`.  The channel-0 sample
of the pixel at row 0 and column 1 is `Pix[r*Stride + c*4] = Pix[4] = 4`, the
element at `PixOffset(c, r)`; `pixval32f(img, r, c)` returns
`Pix[c*Stride + r*4] = Pix[8] = 8`, the element at `PixOffset(r, c)`. -/
theorem pixval32f_reads_transposed :
    (rampImage 2 2).Stride = 4 * 2 ∧
    sliceGet (rampImage 2 2).Pix (0 * (rampImage 2 2).Stride + 1 * 4) = some 4 ∧
    sliceGet (rampImage 2 2).Pix ((rampImage 2 2).PixOffset 1 0) = some 4 ∧
    pixval32f (rampImage 2 2) 0 1 = some 8 ∧
    sliceGet (rampImage 2 2).Pix ((rampImage 2 2).PixOffset 0 1) = some 8 := by
  decide

/-! ### C17: pixels of a sub-image -/

/-- C17, evaluated at the failing input: `p` is the 3 x 1 image with origin
`(0, 0)` and `Pix[n] = n`, `r` is the rectangle `(1,0)-(3,1)` and `(x, y) = (1, 0)`
lies in both.  `p.At(1, 0)` is the pixel `(4, 5, 6, 7)`; the sub-image holds
`Pix = p.Pix[4:]` and its `At(1, 0)` reads at `PixOffset(1, 0) = 4` of that
slice, which is the pixel `(8, 9, 10, 11)` of column 2. -/
theorem SubImage_At_reads_other_pixel :
    Point.In ⟨1, 0⟩ ⟨⟨1, 0⟩, ⟨3, 1⟩⟩ = true ∧ Point.In ⟨1, 0⟩ (rampImage 3 1).Rect = true ∧
    (rampImage 3 1).At 1 0 = some ⟨4, 5, 6, 7⟩ ∧
    (rampImage 3 1).SubImage ⟨⟨1, 0⟩, ⟨3, 1⟩⟩
      = some ⟨[4, 5, 6, 7, 8, 9, 10, 11], 12, ⟨⟨1, 0⟩, ⟨3, 1⟩⟩⟩ ∧
    ((rampImage 3 1).SubImage ⟨⟨1, 0⟩, ⟨3, 1⟩⟩).bind (fun q => q.At 1 0)
      = some ⟨8, 9, 10, 11⟩ := by
  decide

/-! ### C11: order of the entries of the schedule -/

theorem one_lt_two_rpow_inv (n : Nat) (hn : 1 ≤ n) :
    (1 : ℝ) < (2 : ℝ) ^ (1 / (((n : Int) : ℝ))) := by
  apply Real.one_lt_rpow (by norm_num)
  apply div_pos (by norm_num)
  have : (0 : Int) < n := by omega
  exact_mod_cast this

theorem two_rpow_inv_sq_le (n : Nat) (hn : 2 ≤ n) :
    (2 : ℝ) ^ (1 / (((n : Int) : ℝ))) * (2 : ℝ) ^ (1 / (((n : Int) : ℝ))) ≤ 2 := by
  have hpos : (0 : ℝ) < ((n : Int) : ℝ) := by
    have : (0 : Int) < n := by omega
    exact_mod_cast this
  have h2 : (2 : ℝ) ≤ ((n : Int) : ℝ) := by
    have : (2 : Int) ≤ n := by omega
    exact_mod_cast this
  rw [← Real.rpow_add (by norm_num)]
  calc (2 : ℝ) ^ (1 / (((n : Int) : ℝ)) + 1 / (((n : Int) : ℝ)))
      ≤ (2 : ℝ) ^ (1 : ℝ) := by
        apply Real.rpow_le_rpow_of_exponent_le (by norm_num)
        rw [← add_div, div_le_one hpos]
        linarith
    _ = 2 := Real.rpow_one 2

/-- For `S ≥ 2` the second entry of the schedule is not larger than the first. -/
theorem sigClosed_one_le_zero (n : Nat) (hn : 2 ≤ n) (sigma : ℝ) (hσ : 0 < sigma) :
    sigClosed (fun x y : ℝ => x ^ y) Real.sqrt (n : Int) sigma 1
      ≤ sigClosed (fun x y : ℝ => x ^ y) Real.sqrt (n : Int) sigma 0 := by
  have h1 : Real.sqrt ((2 : ℝ) ^ (1 / (((n : Int) : ℝ))) * (2 : ℝ) ^ (1 / (((n : Int) : ℝ))) - 1)
      ≤ 1 := by
    rw [Real.sqrt_le_left (by norm_num : (0 : ℝ) ≤ 1)]
    linarith [two_rpow_inv_sq_le n hn]
  simp only [sigClosed, if_true, one_ne_zero, if_false, Nat.sub_self, pow_zero, mul_one]
  nlinarith

/-- C11 as stated fails at `i = 0`: for the default `S = 3` and `sigma = 1.6` the
schedule has `sig[1] ≤ sig[0]`, so `sig[0] < sig[1]` does not hold. -/
theorem sigSchedule_first_step_not_increasing :
    ∃ sig a b, sigSchedule (fun x y : ℝ => x ^ y) Real.sqrt 3 (8 / 5) = some sig ∧
      sig[0]? = some a ∧ sig[1]? = some b ∧ ¬ a < b := by
  obtain ⟨sig, hsig, -, hval⟩ :=
    sigSchedule_spec (fun x y : ℝ => x ^ y) Real.sqrt 3 (8 / 5)
  exact ⟨sig, _, _, hsig, hval 0 (by norm_num), hval 1 (by norm_num),
    not_lt.mpr (sigClosed_one_le_zero 3 (by norm_num) (8 / 5) (by norm_num))⟩

/-- C11, amended.  Over the reals, for `intvls = S ≥ 1` and `sigma > 0` the
schedule is increasing from its second entry on: `sig[i] < sig[i+1]` for every
`i` with `1 ≤ i < S + 2`.  At `i = 0` it is not increasing when `S ≥ 2`:
`sig[1] ≤ sig[0]`. -/
theorem sigSchedule_increasing_from_one (S : Int) (hS : 1 ≤ S) (sigma : ℝ) (hσ : 0 < sigma) :
    ∃ sig, sigSchedule (fun x y : ℝ => x ^ y) Real.sqrt S sigma = some sig ∧
      (∀ i : Nat, 1 ≤ i → (i : Int) < S + 2 →
        ∃ a b, sig[i]? = some a ∧ sig[i + 1]? = some b ∧ a < b) ∧
      (2 ≤ S → ∃ a b, sig[0]? = some a ∧ sig[1]? = some b ∧ b ≤ a) := by
  obtain ⟨n, rfl⟩ := Int.eq_ofNat_of_zero_le (le_trans (by norm_num) hS)
  have hn : 1 ≤ n := by omega
  obtain ⟨sig, hsig, -, hval⟩ :=
    sigSchedule_spec (fun x y : ℝ => x ^ y) Real.sqrt n sigma
  refine ⟨sig, hsig, fun i hi1 hi2 => ?_, fun h2 => ?_⟩
  · refine ⟨_, _, hval i (by omega), hval (i + 1) (by omega), ?_⟩
    have hk := one_lt_two_rpow_inv n hn
    have hs : 0 < Real.sqrt ((2 : ℝ) ^ (1 / (((n : Int) : ℝ)))
        * (2 : ℝ) ^ (1 / (((n : Int) : ℝ))) - 1) := by
      apply Real.sqrt_pos.mpr
      nlinarith
    obtain ⟨j, rfl⟩ : ∃ j, i = j + 1 := ⟨i - 1, by omega⟩
    simp only [sigClosed, Nat.succ_ne_zero, if_false, Nat.add_sub_cancel]
    rw [pow_succ]
    have hpow : 0 < ((2 : ℝ) ^ (1 / (((n : Int) : ℝ)))) ^ j := pow_pos (by linarith) j
    have hpos : 0 < sigma * Real.sqrt ((2 : ℝ) ^ (1 / (((n : Int) : ℝ)))
        * (2 : ℝ) ^ (1 / (((n : Int) : ℝ))) - 1) * ((2 : ℝ) ^ (1 / (((n : Int) : ℝ)))) ^ j :=
      mul_pos (mul_pos hσ hs) hpow
    rw [← mul_assoc]
    exact lt_mul_of_one_lt_right hpos hk
  · exact ⟨_, _, hval 0 (by omega), hval 1 (by omega),
      sigClosed_one_le_zero n (by omega) sigma hσ⟩

/-- Instance of the amended C11 at the default `S = 3` with `sigma = 1.6`. -/
theorem sigSchedule_increasing_from_one_witness :
    ∃ sig, sigSchedule (fun x y : ℝ => x ^ y) Real.sqrt 3 (8 / 5) = some sig ∧
      (∀ i : Nat, 1 ≤ i → (i : Int) < 3 + 2 →
        ∃ a b, sig[i]? = some a ∧ sig[i + 1]? = some b ∧ a < b) ∧
      ((2 : Int) ≤ 3 → ∃ a b, sig[0]? = some a ∧ sig[1]? = some b ∧ b ≤ a) :=
  sigSchedule_increasing_from_one 3 (by norm_num) (8 / 5) (by norm_num)

/-! ### C14: the short side of the coarsest octave -/

/-- C14.  Over the reals, with `math.Log` the natural logarithm and the
conversion to `int` truncating toward zero, for an image of size `W x H` with
`W, H ≥ 1`: when the octave count `octvs = int(log(min(W,H))/log(2) - 2)` is at
least 1, the short side of octave `octvs - 1`, `floor(min(W,H) / 2^(octvs-1))`,
is at least 4. -/
theorem octaveCount_coarsest_short_side (W H : Int) (hW : 1 ≤ W) (hH : 1 ≤ H)
    (h : 1 ≤ octaveCount Real.log (fun x : ℝ => if 0 ≤ x then ⌊x⌋ else ⌈x⌉) W H) :
    4 ≤ min W H /
      2 ^ (octaveCount Real.log (fun x : ℝ => if 0 ≤ x then ⌊x⌋ else ⌈x⌉) W H - 1).toNat := by
  have hm : (1 : Int) ≤ min W H := le_min hW hH
  have hmr : ((min W H : Int) : ℝ) = min (W : ℝ) (H : ℝ) := by push_cast; rfl
  set x : ℝ := Real.log (min (W : ℝ) (H : ℝ)) / Real.log 2 - 2 with hx
  have hoct : octaveCount Real.log (fun x : ℝ => if 0 ≤ x then ⌊x⌋ else ⌈x⌉) W H
      = if 0 ≤ x then ⌊x⌋ else ⌈x⌉ := rfl
  rw [hoct] at h ⊢
  have hx0 : 0 ≤ x := by
    by_contra hneg
    rw [if_neg hneg] at h
    have : ⌈x⌉ ≤ 0 := Int.ceil_le.mpr (by push_cast; linarith [not_le.mp hneg])
    omega
  rw [if_pos hx0] at h ⊢
  obtain ⟨e, he⟩ : ∃ e : Nat, ⌊x⌋ = (e : Int) + 1 := ⟨(⌊x⌋ - 1).toNat, by omega⟩
  have hfl : ((⌊x⌋ : Int) : ℝ) ≤ x := Int.floor_le x
  rw [he] at hfl ⊢
  have hl2 : 0 < Real.log 2 := Real.log_pos (by norm_num)
  have hlog : ((e : ℝ) + 3) * Real.log 2 ≤ Real.log (min (W : ℝ) (H : ℝ)) := by
    have h1 : ((e : ℝ) + 3) ≤ Real.log (min (W : ℝ) (H : ℝ)) / Real.log 2 := by
      push_cast at hfl
      rw [hx] at hfl
      linarith
    exact (le_div_iff₀ hl2).mp h1
  have hmpos : (0 : ℝ) < min (W : ℝ) (H : ℝ) := by
    rw [← hmr]
    have : (0 : Int) < min W H := by omega
    exact_mod_cast this
  have hpow : ((2 : ℝ) ^ (e + 3)) ≤ min (W : ℝ) (H : ℝ) := by
    rw [← Real.log_le_log_iff (by positivity) hmpos, Real.log_pow]
    push_cast
    exact hlog
  have hpowZ : (2 : Int) ^ (e + 3) ≤ min W H := by
    rw [← hmr] at hpow
    exact_mod_cast hpow
  have hte : ((e : Int) + 1 - 1).toNat = e := by omega
  rw [hte]
  apply Int.le_ediv_of_mul_le (by positivity)
  calc (4 : Int) * 2 ^ e ≤ 8 * 2 ^ e := by
        have : (0 : Int) < 2 ^ e := by positivity
        nlinarith
    _ = 2 ^ (e + 3) := by ring
    _ ≤ min W H := hpowZ

/-- Instance of C14 for an image of size 16 x 20, where the octave count is at
least 1 (the logarithm of 16 to the base 2 is 4). -/
theorem octaveCount_coarsest_short_side_witness :
    4 ≤ min (16 : Int) 20 /
      2 ^ (octaveCount Real.log (fun x : ℝ => if 0 ≤ x then ⌊x⌋ else ⌈x⌉) 16 20 - 1).toNat :=
  octaveCount_coarsest_short_side 16 20 (by norm_num) (by norm_num) (by
    have h16 : Real.log 16 = 4 * Real.log 2 := by
      rw [show (16 : ℝ) = 2 ^ 4 by norm_num, Real.log_pow]
      norm_num
    have hl2 : 0 < Real.log 2 := Real.log_pos (by norm_num)
    have hx : Real.log (min ((16 : Int) : ℝ) ((20 : Int) : ℝ)) / Real.log 2 - 2 = 2 := by
      have : min ((16 : Int) : ℝ) ((20 : Int) : ℝ) = 16 := by
        push_cast
        exact min_eq_left (by norm_num)
      rw [this, h16]
      field_simp
      ring
    unfold octaveCount
    rw [hx]
    norm_num)

/-! ### C15: no validation of the configuration -/

/-- C15 as stated fails: for a base image of size 8 x 6, `intvls = 0` (less than
1) and `octvs = 2` (more than `floor(log2(6)) - 2 = 0`), `build_gauss_pyr` does
not fail but returns a pyramid of two rows of three images. -/
theorem build_gauss_pyr_accepts_invalid_configuration :
    build_gauss_pyr (fun x _ : ℚ => x) (fun x => x) keepBounds (fun img => img)
        resizeBounds (rect0 8 6) 2 0 (8 / 5)
      = some [[some (rect0 8 6), some (rect0 8 6), some (rect0 8 6)],
          [some (rect0 4 3), some (rect0 4 3), some (rect0 4 3)]] := by
  decide

theorem sigSchedule_fails_of_le {F : Type} [DivisionRing F] (Pow : F → F → F)
    (Sqrt : F → F) (intvls : Int) (sigma : F) (h : intvls ≤ -2) :
    sigSchedule Pow Sqrt intvls sigma = none := by
  unfold sigSchedule
  by_cases hneg : intvls + 3 < 0
  · simp [make, hneg]
  · have h01 : (intvls + 3).toNat = 0 ∨ (intvls + 3).toNat = 1 := by omega
    rcases h01 with h0 | h1
    · simp [make, hneg, h0, sliceSet]
    · simp [make, hneg, h1, sliceSet]

/-- C15, amended.  `build_gauss_pyr` does not check its configuration.  For every
base image, every `octvs ≥ 0` and every `intvls ≥ 0`, also for `intvls = 0` and
for octave counts that the dimensions of the image do not support, it returns a
pyramid of `octvs` rows of `intvls + 3` images.  It fails before any image of the
pyramid is produced only for `intvls ≤ -2`, where the slice `sig` is too short. -/
theorem build_gauss_pyr_no_validation {Img F : Type} [DivisionRing F]
    (Pow : F → F → F) (Sqrt : F → F) (GaussianSmooth : Img → F → Int → Img)
    (bounds : Img → Rectangle) (Resize : Int → Int → Img → Img) (srcImg : Img)
    (octvs intvls : Int) (sigma : F) :
    (0 ≤ octvs → 0 ≤ intvls →
      ∃ pyr, build_gauss_pyr Pow Sqrt GaussianSmooth bounds Resize srcImg octvs intvls sigma
          = some pyr ∧
        (pyr.length : Int) = octvs ∧
        ∀ row ∈ pyr, (row.length : Int) = intvls + 3 ∧ ∀ e ∈ row, e.isSome = true) ∧
    (intvls ≤ -2 →
      build_gauss_pyr Pow Sqrt GaussianSmooth bounds Resize srcImg octvs intvls sigma
        = none) := by
  constructor
  · intro ho hi
    obtain ⟨N, rfl⟩ := Int.eq_ofNat_of_zero_le ho
    obtain ⟨S, rfl⟩ := Int.eq_ofNat_of_zero_le hi
    obtain ⟨sig, pyr, -, -, hpyr, hl, hrows⟩ :=
      build_gauss_pyr_spec GaussianSmooth bounds Resize srcImg Pow Sqrt N S sigma
    refine ⟨pyr, hpyr, by rw [hl], fun row hrow => ?_⟩
    obtain ⟨o, hoN, rfl⟩ := List.mem_iff_getElem.mp hrow
    have h1 := hrows o (by omega)
    rw [List.getElem?_eq_getElem hoN] at h1
    rw [Option.some.inj h1]
    refine ⟨by simp [gaussRow], fun e he => ?_⟩
    simp only [gaussRow, List.mem_map] at he
    obtain ⟨i, -, rfl⟩ := he
    rfl
  · intro h
    unfold build_gauss_pyr
    rw [sigSchedule_fails_of_le Pow Sqrt intvls sigma h]
    rfl

/-- Instance of the amended C15: a base image of size 8 x 6 with `octvs = 2` and
`intvls = 0`, and the same image with `intvls = -2`. -/
theorem build_gauss_pyr_no_validation_witness :
    (∃ pyr, build_gauss_pyr (fun x _ : ℚ => x) (fun x => x) keepBounds (fun img => img)
          resizeBounds (rect0 8 6) 2 0 (8 / 5) = some pyr ∧
        (pyr.length : Int) = 2 ∧
        ∀ row ∈ pyr, (row.length : Int) = 0 + 3 ∧ ∀ e ∈ row, e.isSome = true) ∧
    build_gauss_pyr (fun x _ : ℚ => x) (fun x => x) keepBounds (fun img => img)
        resizeBounds (rect0 8 6) 2 (-2) (8 / 5) = none :=
  ⟨(build_gauss_pyr_no_validation (fun x _ : ℚ => x) (fun x => x) keepBounds
      (fun img => img) resizeBounds (rect0 8 6) 2 0 (8 / 5)).1 (by norm_num) (by norm_num),
    (build_gauss_pyr_no_validation (fun x _ : ℚ => x) (fun x => x) keepBounds
      (fun img => img) resizeBounds (rect0 8 6) 2 (-2) (8 / 5)).2 (by norm_num)⟩

/-! ### `SubstractImage`: the loops -/

theorem foldlM_range_preserves {σ : Type} (P : σ → Prop) (f : σ → Nat → Option σ)
    (hstep : ∀ m st st1, f st m = some st1 → P st → P st1) (n : Nat) (s st : σ)
    (h0 : P s) (h : (List.range n).foldlM f s = some st) : P st := by
  induction n generalizing st with
  | zero =>
    simp at h
    rw [← h]
    exact h0
  | succ k ih =>
    rw [foldlM_range_succ] at h
    cases hk : List.foldlM f s (List.range k) with
    | none => simp [hk] at h
    | some mid =>
      rw [hk] at h
      exact hstep k mid st (by simpa using h) (ih mid hk)

/-- Partial-correctness rule for a counted loop: a property that every
iteration carries over holds at the end whenever the loop does not fail. -/
theorem forLoop_preserves {σ : Type} (P : σ → Prop) (lo hi : Int)
    (body : Int → σ → Option σ)
    (hstep : ∀ i st st1, body i st = some st1 → P st → P st1) (s st : σ)
    (h0 : P s) (h : forLoop lo hi body s = some st) : P st := by
  unfold forLoop at h
  exact foldlM_range_preserves P (fun st (n : Nat) => body (lo + (n : Int)) st)
    (fun m a b hab => hstep _ a b hab) _ s st h0 h

theorem SubstractImage_eq (src1 src2 : Image) :
    SubstractImage src1 src2 =
      (ConvertImageToRGBA src1).bind fun source1 =>
      (ConvertImageToRGBA src2).bind fun source2 =>
      (newSiftImage src1.Bounds).bind fun destImg =>
      (forLoop 0 src1.Bounds.Dy (fun y pix0 =>
        forLoop 0 src1.Bounds.Dx (fun x pix1 =>
          subPixel source1 source2 source1.Stride y x pix1) pix0) destImg.Pix).bind fun pix =>
      some { destImg with Pix := pix } := rfl

theorem ConvertImageToRGBA_spec (srcImg : Image) (hx : 0 ≤ srcImg.Bounds.Dx)
    (hy : 0 ≤ srcImg.Bounds.Dy) :
    ConvertImageToRGBA srcImg = some
      { Pix := (List.range (4 * srcImg.Bounds.Dx.toNat * srcImg.Bounds.Dy.toNat)).map
          (rgbaSample srcImg)
        Stride := 4 * srcImg.Bounds.Dx
        Rect := srcImg.Bounds } := by
  unfold ConvertImageToRGBA
  have : ¬ (srcImg.Bounds.Dx < 0 ∨ srcImg.Bounds.Dy < 0) := by omega
  simp only [this, if_false]
  rfl

theorem newSiftImage_spec (r : Rectangle) (hx : 0 ≤ r.Dx) (hy : 0 ≤ r.Dy) :
    newSiftImage r = some
      { Pix := List.replicate (4 * r.Dx.toNat * r.Dy.toNat) 0, Stride := 4 * r.Dx, Rect := r } := by
  unfold newSiftImage make
  have hnn : 0 ≤ 4 * r.Dx * r.Dy := by positivity
  have hneg : ¬ (4 * r.Dx * r.Dy < 0) := by omega
  have hn : (4 * r.Dx * r.Dy).toNat = 4 * r.Dx.toNat * r.Dy.toNat := by
    obtain ⟨w, hw⟩ := Int.eq_ofNat_of_zero_le hx
    obtain ⟨h, hh⟩ := Int.eq_ofNat_of_zero_le hy
    have hw1 : r.Dx.toNat = w := by omega
    have hh1 : r.Dy.toNat = h := by omega
    have : (4 * (w : Int) * (h : Int)) = ((4 * w * h : Nat) : Int) := by push_cast; ring
    rw [hw1, hh1, hw, hh, this]
    exact Int.toNat_ofNat _
  simp [hneg, hn]

/-- One assignment of `SubstractImage` at the index `k`, when the samples below
`k` are already the differences: it does not fail and the samples below `k + 1`
are the differences. -/
theorem subSample_step (s1 s2 : RGBA) (L : Nat) (f1 f2 : Nat → Nat)
    (h1 : s1.Pix = (List.range L).map f1) (h2 : s2.Pix = (List.range L).map f2)
    (k : Nat) (hk : k < L) (idx : Int) (hidx : idx = (k : Int)) (pix : List Int)
    (hlen : pix.length = L)
    (hinv : ∀ n, n < k → pix[n]? = some ((uint8Sub (f1 n) (f2 n) : Nat) : Int)) :
    ∃ pix1, subSample s1 s2 idx pix = some pix1 ∧ pix1.length = L ∧
      ∀ n, n < k + 1 → pix1[n]? = some ((uint8Sub (f1 n) (f2 n) : Nat) : Int) := by
  have ha : sliceGet s1.Pix idx = some (f1 k) := by
    rw [sliceGet_of_eq _ idx k hidx, h1, List.getElem?_map, List.getElem?_range hk]
    rfl
  have hb : sliceGet s2.Pix idx = some (f2 k) := by
    rw [sliceGet_of_eq _ idx k hidx, h2, List.getElem?_map, List.getElem?_range hk]
    rfl
  refine ⟨pix.set k ((uint8Sub (f1 k) (f2 k) : Nat) : Int), ?_, by simpa using hlen, ?_⟩
  · unfold subSample
    simp only [ha, hb, Option.bind_eq_bind, Option.some_bind]
    exact sliceSet_of_eq pix idx k _ hidx (by omega)
  · intro n hn
    rw [List.getElem?_set]
    by_cases hkn : k = n
    · subst hkn
      rw [if_pos rfl, if_pos (by omega)]
    · rw [if_neg hkn]
      exact hinv n (by omega)

/-- The four assignments for the pixel number `m` (counted row by row). -/
theorem subPixel_step (s1 s2 : RGBA) (L : Nat) (f1 f2 : Nat → Nat)
    (h1 : s1.Pix = (List.range L).map f1) (h2 : s2.Pix = (List.range L).map f2)
    (m : Nat) (hm : 4 * m + 3 < L) (stride y x : Int)
    (hidx : y * stride + x * 4 = ((4 * m : Nat) : Int)) (pix : List Int)
    (hlen : pix.length = L)
    (hinv : ∀ n, n < 4 * m → pix[n]? = some ((uint8Sub (f1 n) (f2 n) : Nat) : Int)) :
    ∃ pix1, subPixel s1 s2 stride y x pix = some pix1 ∧ pix1.length = L ∧
      ∀ n, n < 4 * (m + 1) → pix1[n]? = some ((uint8Sub (f1 n) (f2 n) : Nat) : Int) := by
  obtain ⟨p0, e0, l0, i0⟩ := subSample_step s1 s2 L f1 f2 h1 h2 (4 * m) (by omega)
    (y * stride + x * 4) hidx pix hlen hinv
  obtain ⟨p1, e1, l1, i1⟩ := subSample_step s1 s2 L f1 f2 h1 h2 (4 * m + 1) (by omega)
    (y * stride + x * 4 + 1) (by rw [hidx]; push_cast; ring) p0 l0 i0
  obtain ⟨p2, e2, l2, i2⟩ := subSample_step s1 s2 L f1 f2 h1 h2 (4 * m + 2) (by omega)
    (y * stride + x * 4 + 2) (by rw [hidx]; push_cast; ring) p1 l1 i1
  obtain ⟨p3, e3, l3, i3⟩ := subSample_step s1 s2 L f1 f2 h1 h2 (4 * m + 3) (by omega)
    (y * stride + x * 4 + 3) (by rw [hidx]; push_cast; ring) p2 l2 i2
  refine ⟨p3, ?_, l3, fun n hn => i3 n (by omega)⟩
  unfold subPixel
  simp only [e0, e1, e2, Option.bind_eq_bind, Option.some_bind]
  exact e3

/-- The inner loop of `SubstractImage` for the row `y`. -/
theorem subRow_spec (s1 s2 : RGBA) (w h : Nat) (f1 f2 : Nat → Nat)
    (h1 : s1.Pix = (List.range (4 * w * h)).map f1)
    (h2 : s2.Pix = (List.range (4 * w * h)).map f2)
    (y : Nat) (hy : y < h) (yi : Int) (hyi : yi = (y : Int)) (pix : List Int)
    (hlen : pix.length = 4 * w * h)
    (hinv : ∀ n, n < 4 * (y * w) → pix[n]? = some ((uint8Sub (f1 n) (f2 n) : Nat) : Int)) :
    ∃ pix1, forLoop 0 (w : Int) (fun x p => subPixel s1 s2 (4 * (w : Int)) yi x p) pix
        = some pix1 ∧ pix1.length = 4 * w * h ∧
      ∀ n, n < 4 * ((y + 1) * w) →
        pix1[n]? = some ((uint8Sub (f1 n) (f2 n) : Nat) : Int) := by
  have hcount : ((w : Int) - 0).toNat = w := by omega
  have hrow : y * w + w ≤ h * w := by
    have := Nat.mul_le_mul_right w (show y + 1 ≤ h by omega)
    rwa [Nat.add_mul, Nat.one_mul] at this
  have hL : 4 * w * h = 4 * (h * w) := by ring
  obtain ⟨pix1, hp, hl, hv⟩ := forLoop_inv
    (fun x (p : List Int) => p.length = 4 * w * h ∧
      ∀ n, n < 4 * (y * w + x) → p[n]? = some ((uint8Sub (f1 n) (f2 n) : Nat) : Int))
    0 (w : Int) (fun x p => subPixel s1 s2 (4 * (w : Int)) yi x p) pix
    ⟨hlen, fun n hn => hinv n (by omega)⟩
    (by
      intro x p hx ⟨hpl, hpv⟩
      rw [hcount] at hx
      obtain ⟨p1, e, l, i⟩ := subPixel_step s1 s2 (4 * w * h) f1 f2 h1 h2 (y * w + x)
        (by omega) (4 * (w : Int)) yi (0 + (x : Int))
        (by rw [hyi]; push_cast; ring) p hpl hpv
      exact ⟨p1, e, l, fun n hn => i n (by omega)⟩)
  rw [hcount] at hv
  refine ⟨pix1, hp, hl, fun n hn => hv n ?_⟩
  have : (y + 1) * w = y * w + w := by ring
  omega

/-- The function `SubstractImage` on two images with the same bounds, of
non-negative width and height: it does not fail, the result has the bounds of
`src1`, `Stride = 4 * Dx`, `4 * Dx * Dy` samples, and the sample at every index
`n` is the `uint8` difference of the samples of the two images at `n`. -/
theorem SubstractImage_spec (src1 src2 : Image) (hb : src2.Bounds = src1.Bounds)
    (hx : 0 ≤ src1.Bounds.Dx) (hy : 0 ≤ src1.Bounds.Dy) :
    ∃ d, SubstractImage src1 src2 = some d ∧ d.Stride = 4 * src1.Bounds.Dx ∧
      d.Rect = src1.Bounds ∧
      d.Pix.length = 4 * src1.Bounds.Dx.toNat * src1.Bounds.Dy.toNat ∧
      ∀ n, n < 4 * src1.Bounds.Dx.toNat * src1.Bounds.Dy.toNat →
        d.Pix[n]? = some ((uint8Sub (rgbaSample src1 n) (rgbaSample src2 n) : Nat) : Int) := by
  obtain ⟨w, hw⟩ := Int.eq_ofNat_of_zero_le hx
  obtain ⟨h, hh⟩ := Int.eq_ofNat_of_zero_le hy
  have hw1 : src1.Bounds.Dx.toNat = w := by omega
  have hh1 : src1.Bounds.Dy.toNat = h := by omega
  rw [SubstractImage_eq, ConvertImageToRGBA_spec src1 hx hy,
    ConvertImageToRGBA_spec src2 (by rw [hb]; exact hx) (by rw [hb]; exact hy),
    newSiftImage_spec _ hx hy]
  simp only [Option.some_bind, hb, hw1, hh1, hw, hh, Int.toNat_ofNat]
  have hcount : ((h : Int) - 0).toNat = h := by omega
  obtain ⟨pix, hp, hl, hv⟩ := forLoop_inv
    (fun y (p : List Int) => p.length = 4 * w * h ∧
      ∀ n, n < 4 * (y * w) →
        p[n]? = some ((uint8Sub (rgbaSample src1 n) (rgbaSample src2 n) : Nat) : Int))
    0 (h : Int)
    (fun y pix0 => forLoop 0 (w : Int) (fun x pix1 =>
      subPixel ⟨(List.range (4 * w * h)).map (rgbaSample src1), 4 * (w : Int), src1.Bounds⟩
        ⟨(List.range (4 * w * h)).map (rgbaSample src2), 4 * (w : Int), src1.Bounds⟩
        (4 * (w : Int)) y x pix1) pix0)
    (List.replicate (4 * w * h) 0)
    ⟨by simp, fun n hn => absurd hn (by omega)⟩
    (by
      intro y p hy ⟨hpl, hpv⟩
      rw [hcount] at hy
      exact subRow_spec _ _ w h (rgbaSample src1) (rgbaSample src2) rfl rfl y hy _
        (by simp) p hpl hpv)
  rw [hcount] at hv
  refine ⟨⟨pix, 4 * (w : Int), src1.Bounds⟩, by rw [hp]; rfl, rfl, rfl, hl,
    fun n hn => hv n ?_⟩
  have : 4 * w * h = 4 * (h * w) := by ring
  omega

/-- What a successful assignment of `SubstractImage` does to the destination:
one element is replaced by a `uint8` difference. -/
theorem subSample_some (s1 s2 : RGBA) (idx : Int) (pix pix1 : List Int)
    (h : subSample s1 s2 idx pix = some pix1) :
    ∃ j a b, pix1 = pix.set j ((uint8Sub a b : Nat) : Int) := by
  unfold subSample at h
  cases ha : sliceGet s1.Pix idx with
  | none => simp [ha] at h
  | some a =>
    cases hb : sliceGet s2.Pix idx with
    | none => simp [ha, hb] at h
    | some b =>
      simp only [ha, hb, Option.bind_eq_bind, Option.some_bind, sliceSet] at h
      split at h
      · exact ⟨idx.toNat, a, b, (Option.some.inj h).symm⟩
      · exact absurd h (by simp)

/-- A property of the destination that every single assignment keeps is kept by
the two loops of `SubstractImage`. -/
theorem subtract_loops_preserve (P : List Int → Prop)
    (hP : ∀ pix j a b, P pix → P (pix.set j ((uint8Sub a b : Nat) : Int)))
    (s1 s2 : RGBA) (stride dx dy : Int) (pix0 pix : List Int) (h0 : P pix0)
    (h : forLoop 0 dy (fun y p0 => forLoop 0 dx (fun x p1 =>
      subPixel s1 s2 stride y x p1) p0) pix0 = some pix) : P pix := by
  have hsample : ∀ idx p p1, subSample s1 s2 idx p = some p1 → P p → P p1 := by
    intro idx p p1 hs hp
    obtain ⟨j, a, b, rfl⟩ := subSample_some s1 s2 idx p p1 hs
    exact hP p j a b hp
  have hpixel : ∀ y x p p1, subPixel s1 s2 stride y x p = some p1 → P p → P p1 := by
    intro y x p p1 hs hp
    unfold subPixel at hs
    cases e0 : subSample s1 s2 (y * stride + x * 4) p with
    | none => simp [e0] at hs
    | some q0 =>
      cases e1 : subSample s1 s2 (y * stride + x * 4 + 1) q0 with
      | none => simp [e0, e1] at hs
      | some q1 =>
        cases e2 : subSample s1 s2 (y * stride + x * 4 + 2) q1 with
        | none => simp [e0, e1, e2] at hs
        | some q2 =>
          simp only [e0, e1, e2, Option.bind_eq_bind, Option.some_bind] at hs
          exact hsample _ _ _ hs (hsample _ _ _ e2 (hsample _ _ _ e1 (hsample _ _ _ e0 hp)))
  exact forLoop_preserves P 0 dy _
    (fun y p p1 hrow hp => forLoop_preserves P 0 dx _
      (fun x q q1 hq hqP => hpixel y x q q1 hq hqP) p p1 hp hrow) pix0 pix h0 h

/-- Every result of `SubstractImage` is the result of `newSiftImage` on the
bounds of `src1` with a destination slice that went through the two loops. -/
theorem SubstractImage_some (src1 src2 : Image) (d : SiftImage)
    (h : SubstractImage src1 src2 = some d) :
    ∃ s1 s2 dest, newSiftImage src1.Bounds = some dest ∧
      forLoop 0 src1.Bounds.Dy (fun y p0 => forLoop 0 src1.Bounds.Dx (fun x p1 =>
        subPixel s1 s2 s1.Stride y x p1) p0) dest.Pix = some d.Pix ∧
      d.Stride = dest.Stride ∧ d.Rect = dest.Rect := by
  rw [SubstractImage_eq] at h
  cases h1 : ConvertImageToRGBA src1 with
  | none => simp [h1] at h
  | some s1 =>
    cases h2 : ConvertImageToRGBA src2 with
    | none => simp [h1, h2] at h
    | some s2 =>
      cases h3 : newSiftImage src1.Bounds with
      | none => simp [h1, h2, h3] at h
      | some dest =>
        simp only [h1, h2, h3, Option.some_bind] at h
        cases h4 : forLoop 0 src1.Bounds.Dy (fun y p0 => forLoop 0 src1.Bounds.Dx
            (fun x p1 => subPixel s1 s2 s1.Stride y x p1) p0) dest.Pix with
        | none => simp [h4] at h
        | some pix =>
          simp only [h4, Option.some_bind, Option.some.injEq] at h
          subst h
          exact ⟨s1, s2, dest, rfl, h4, rfl, rfl⟩

theorem newSiftImage_wellFormed (r : Rectangle) (p : SiftImage)
    (h : newSiftImage r = some p) : p.WellFormed ∧ p.Rect = r ∧ ∀ v ∈ p.Pix, v = 0 := by
  unfold newSiftImage make at h
  by_cases hneg : 4 * r.Dx * r.Dy < 0
  · simp [hneg] at h
  · simp only [hneg, if_false, Option.bind_eq_bind, Option.some_bind, Option.some.injEq] at h
    subst h
    refine ⟨⟨rfl, ?_⟩, rfl, fun v hv => List.eq_of_mem_replicate hv⟩
    simp only [List.length_replicate]
    rw [Int.toNat_of_nonneg (by omega)]

/-- Every result of `SubstractImage` satisfies the invariant, has the bounds of
`src1`, and holds only samples in `[0, 255]`. -/
theorem SubstractImage_result (src1 src2 : Image) (d : SiftImage)
    (h : SubstractImage src1 src2 = some d) :
    d.WellFormed ∧ d.Rect = src1.Bounds ∧ ∀ v ∈ d.Pix, 0 ≤ v ∧ v ≤ 255 := by
  obtain ⟨s1, s2, dest, hdest, hloop, hs, hr⟩ := SubstractImage_some src1 src2 d h
  obtain ⟨⟨hst, hlen⟩, hrect, hzero⟩ := newSiftImage_wellFormed _ _ hdest
  have hl : d.Pix.length = dest.Pix.length :=
    subtract_loops_preserve (fun p => p.length = dest.Pix.length)
      (fun pix j a b hp => by simpa using hp) s1 s2 _ _ _ _ _ rfl hloop
  have hrange : ∀ v ∈ d.Pix, 0 ≤ v ∧ v ≤ 255 :=
    subtract_loops_preserve (fun p => ∀ v ∈ p, (0 : Int) ≤ v ∧ v ≤ 255)
      (fun pix j a b hp v hv => by
        rcases List.mem_or_eq_of_mem_set hv with hmem | rfl
        · exact hp v hmem
        · unfold uint8Sub
          omega)
      s1 s2 _ _ _ _ _ (fun v hv => by rw [hzero v hv]; omega) hloop
  refine ⟨⟨by rw [hs, hr, hst], by rw [hl, hs, hr, hlen]⟩, by rw [hr, hrect], hrange⟩

/-! ### C16: the invariant `Stride = 4 * width`, `len(Pix) = Stride * height` -/

/-- C16 as stated fails for `SubImage`: the 2 x 2 image `rampImage 2 2`
satisfies the invariant, but its sub-image for the rectangle `(1,0)-(2,2)` of
width 1 keeps `Stride = 8` and holds the 12 samples from index 4 on, so neither
`Stride = 4 * width` nor `len(Pix) = Stride * height` holds for it. -/
theorem SubImage_breaks_invariant :
    (rampImage 2 2).WellFormed ∧
    (rampImage 2 2).SubImage ⟨⟨1, 0⟩, ⟨2, 2⟩⟩
      = some ⟨[4, 5, 6, 7, 8, 9, 10, 11, 12, 13, 14, 15], 8, ⟨⟨1, 0⟩, ⟨2, 2⟩⟩⟩ ∧
    ¬ (⟨[4, 5, 6, 7, 8, 9, 10, 11, 12, 13, 14, 15], 8, ⟨⟨1, 0⟩, ⟨2, 2⟩⟩⟩ : SiftImage).Stride
        = 4 * (⟨[4, 5, 6, 7, 8, 9, 10, 11, 12, 13, 14, 15], 8,
          ⟨⟨1, 0⟩, ⟨2, 2⟩⟩⟩ : SiftImage).Rect.Dx ∧
    ¬ (⟨[4, 5, 6, 7, 8, 9, 10, 11, 12, 13, 14, 15], 8, ⟨⟨1, 0⟩, ⟨2, 2⟩⟩⟩ : SiftImage).WellFormed := by
  refine ⟨by unfold SiftImage.WellFormed; decide, by decide, by decide, ?_⟩
  unfold SiftImage.WellFormed
  decide

/-- C16, amended.  Every `SiftImage` that `newSiftImage` returns for a rectangle
whose width, height, `4 * width` and `4 * width * height` are in the range of
`int`, and every `SiftImage` that `SubstractImage` returns, satisfies
`Stride = 4 * width` and `len(Pix) = Stride * height`.  `SubImage(r)` returns the
empty `SiftImage`, which satisfies the invariant, when the intersection of `r`
with `p.Rect` is empty; otherwise its result keeps the `Stride` of `p` and has
the intersection as its `Rect`. -/
theorem SiftImage_invariant_of_operations :
    (∀ (r : Rectangle) (p : SiftImage), NoIntOverflow r → newSiftImage r = some p →
      p.WellFormed) ∧
    (∀ (src1 src2 : Image) (d : SiftImage), SubstractImage src1 src2 = some d →
      d.WellFormed) ∧
    (∀ (p : SiftImage) (r : Rectangle) (q : SiftImage), p.SubImage r = some q →
      ((r.Intersect p.Rect).Empty = true ∧ q.WellFormed) ∨
      ((r.Intersect p.Rect).Empty = false ∧ q.Stride = p.Stride ∧
        q.Rect = r.Intersect p.Rect)) := by
  refine ⟨fun r p _ h => (newSiftImage_wellFormed r p h).1,
    fun src1 src2 d h => (SubstractImage_result src1 src2 d h).1, fun p r q h => ?_⟩
  unfold SiftImage.SubImage at h
  cases he : (r.Intersect p.Rect).Empty with
  | true =>
    left
    simp only [he, if_true, Option.some.injEq] at h
    subst h
    refine ⟨rfl, ?_⟩
    unfold SiftImage.WellFormed
    decide
  | false =>
    right
    simp only [he, Bool.false_eq_true, if_false, Option.bind_eq_bind] at h
    cases hs : sliceFrom p.Pix (p.PixOffset (r.Intersect p.Rect).Min.X
        (r.Intersect p.Rect).Min.Y) with
    | none => simp [hs] at h
    | some pix =>
      simp only [hs, Option.some_bind, Option.some.injEq] at h
      subst h
      exact ⟨rfl, rfl, rfl⟩

set_option maxRecDepth 100000 in
/-- Instance of the amended C16: `newSiftImage` on `image.Rect(0, 0, 2, 2)`,
`SubstractImage` on two 1 x 1 images, and a sub-image of `rampImage 2 2`. -/
theorem SiftImage_invariant_of_operations_witness :
    NoIntOverflow (rect0 2 2) ∧
    newSiftImage (rect0 2 2) = some ⟨List.replicate 16 0, 8, rect0 2 2⟩ ∧
    (⟨List.replicate 16 0, 8, rect0 2 2⟩ : SiftImage).WellFormed ∧
    (⟨[255, 255, 255, 255], 4, rect0 1 1⟩ : SiftImage).WellFormed ∧
    ((((⟨⟨1, 0⟩, ⟨2, 2⟩⟩ : Rectangle).Intersect (rampImage 2 2).Rect).Empty = true ∧
        (⟨[4, 5, 6, 7, 8, 9, 10, 11, 12, 13, 14, 15], 8, ⟨⟨1, 0⟩, ⟨2, 2⟩⟩⟩ : SiftImage).WellFormed) ∨
      (((⟨⟨1, 0⟩, ⟨2, 2⟩⟩ : Rectangle).Intersect (rampImage 2 2).Rect).Empty = false ∧
        (⟨[4, 5, 6, 7, 8, 9, 10, 11, 12, 13, 14, 15], 8, ⟨⟨1, 0⟩, ⟨2, 2⟩⟩⟩ : SiftImage).Stride
          = (rampImage 2 2).Stride ∧
        (⟨[4, 5, 6, 7, 8, 9, 10, 11, 12, 13, 14, 15], 8, ⟨⟨1, 0⟩, ⟨2, 2⟩⟩⟩ : SiftImage).Rect
          = (⟨⟨1, 0⟩, ⟨2, 2⟩⟩ : Rectangle).Intersect (rampImage 2 2).Rect)) :=
  ⟨by unfold NoIntOverflow InIntRange; decide, by decide,
    SiftImage_invariant_of_operations.1 (rect0 2 2) _
      (by unfold NoIntOverflow InIntRange; decide) (by decide),
    SiftImage_invariant_of_operations.2.1 (constImage 1 1 0) (constImage 1 1 1) _ (by decide),
    SiftImage_invariant_of_operations.2.2 (rampImage 2 2) ⟨⟨1, 0⟩, ⟨2, 2⟩⟩ _ (by decide)⟩

/-! ### The loops of `build_dog_pyr` -/

/-- The inner loop of `build_dog_pyr` for the octave `r`, when the `M`
subtractions of that octave do not fail: it fills row `r` with their results and
leaves the other rows as they are. -/
theorem dog_inner_loop (gauss_pyr : List (List (Option Image))) (M r : Nat)
    (pyr1 : List (List (Option SiftImage)))
    (hr : pyr1[r]? = some (List.replicate M none))
    (hcalls : ∀ i : Nat, i < M → ∃ a b d,
      get2 gauss_pyr (r : Int) ((i : Int) + 1) = some (some a) ∧
      get2 gauss_pyr (r : Int) (i : Int) = some (some b) ∧ SubstractImage a b = some d) :
    ∃ p, forLoop 0 (M : Int) (fun i p => dogStep gauss_pyr (r : Int) i p) pyr1 = some p ∧
      p.length = pyr1.length ∧ (∀ q, q ≠ r → p[q]? = pyr1[q]?) ∧
      ∃ rowl, p[r]? = some rowl ∧ rowl.length = M ∧
        ∀ j : Nat, j < M → DogEntryOk gauss_pyr (r : Int) (j : Int) rowl[j]? := by
  have hcount : ((M : Int) - 0).toNat = M := by omega
  obtain ⟨p, hp, hlen, hother, rowl, hrow, hrl, hval⟩ := forLoop_inv
    (fun m (p : List (List (Option SiftImage))) => p.length = pyr1.length ∧
      (∀ q, q ≠ r → p[q]? = pyr1[q]?) ∧
      ∃ rowl, p[r]? = some rowl ∧ rowl.length = M ∧
        ∀ j : Nat, j < m → DogEntryOk gauss_pyr (r : Int) (j : Int) rowl[j]?)
    0 (M : Int) (fun i p => dogStep gauss_pyr (r : Int) i p) pyr1
    ⟨rfl, fun _ _ => rfl, _, hr, by simp, fun j hj => absurd hj (Nat.not_lt_zero j)⟩
    (by
      intro m p hm ⟨hlen, hother, rowl, hrow, hrl, hval⟩
      rw [hcount] at hm
      have hrp : r < p.length := (List.getElem?_eq_some.mp hrow).1
      obtain ⟨a, b, d, ha, hb, hd⟩ := hcalls m hm
      beta_reduce
      unfold dogStep
      simp only [zero_add, ha, hb, hd, Option.bind_eq_bind, Option.some_bind]
      rw [set2_of_eq p _ _ r m rowl _ rfl rfl hrow (by omega)]
      refine ⟨_, rfl, by simpa using hlen, fun q hq => ?_, rowl.set m (some d), ?_,
        by simpa using hrl, fun j hj => ?_⟩
      · rw [List.getElem?_set, if_neg (Ne.symm hq)]
        exact hother q hq
      · rw [List.getElem?_set, if_pos rfl, if_pos hrp]
      · rw [List.getElem?_set]
        by_cases hjm : m = j
        · subst hjm
          rw [if_pos rfl, if_pos (by omega)]
          exact ⟨a, b, d, ha, hb, hd, rfl⟩
        · rw [if_neg hjm]
          exact hval j (by omega))
  rw [hcount] at hval
  exact ⟨p, hp, hlen, hother, rowl, hrow, hrl, hval⟩

/-- The function `build_dog_pyr` for `octvs = N` and `intvls + 2 = M`, when the
subtractions `SubstractImage(gauss_pyr[o][i+1], gauss_pyr[o][i])` for `o < N` and
`i < M` do not fail: it does not fail and returns `N` rows of `M` entries, the
entry `[o][i]` being the result of that subtraction. -/
theorem build_dog_pyr_spec (gauss_pyr : List (List (Option Image))) (N M : Nat)
    (intvls : Int) (hM : intvls + 2 = (M : Int))
    (hcalls : ∀ o i : Nat, o < N → i < M → ∃ a b d,
      get2 gauss_pyr (o : Int) ((i : Int) + 1) = some (some a) ∧
      get2 gauss_pyr (o : Int) (i : Int) = some (some b) ∧ SubstractImage a b = some d) :
    ∃ pyr, build_dog_pyr gauss_pyr (N : Int) intvls = some pyr ∧ pyr.length = N ∧
      ∀ o : Nat, o < N → ∃ row, pyr[o]? = some row ∧ row.length = M ∧
        ∀ j : Nat, j < M → DogEntryOk gauss_pyr (o : Int) (j : Int) row[j]? := by
  have hmakeN : make (N : Int) ([] : List (Option SiftImage)) = some (List.replicate N []) := by
    have : ¬ ((N : Int) < 0) := by omega
    simp [make, this]
  have hmakeM : make (M : Int) (none : Option SiftImage) = some (List.replicate M none) := by
    have : ¬ ((M : Int) < 0) := by omega
    simp [make, this]
  have hcount : ((N : Int) - 0).toNat = N := by omega
  obtain ⟨pyr, hpyr, hl, hrows⟩ := forLoop_inv
    (fun m (pyr : List (List (Option SiftImage))) => pyr.length = N ∧
      ∀ o : Nat, o < m → ∃ row, pyr[o]? = some row ∧ row.length = M ∧
        ∀ j : Nat, j < M → DogEntryOk gauss_pyr (o : Int) (j : Int) row[j]?)
    0 (N : Int)
    (fun o pyr =>
      (make (M : Int) (none : Option SiftImage)).bind fun fresh =>
      (sliceSet pyr o fresh).bind fun pyr1 =>
      forLoop 0 (M : Int) (fun i p => dogStep gauss_pyr o i p) pyr1)
    (List.replicate N [])
    ⟨by simp, fun o ho => absurd ho (Nat.not_lt_zero o)⟩
    (by
      intro m pyr hm ⟨hl, hrows⟩
      rw [hcount] at hm
      beta_reduce
      rw [hmakeM]
      simp only [Option.some_bind]
      rw [sliceSet_of_eq pyr _ m _ (by simp) (by omega)]
      simp only [Option.some_bind, zero_add]
      obtain ⟨p, hp, hpl, hother, hrow⟩ := dog_inner_loop gauss_pyr M m
        (pyr.set m (List.replicate M none))
        (by rw [List.getElem?_set, if_pos rfl, if_pos (by omega)])
        (fun i hi => hcalls m i hm hi)
      refine ⟨p, hp, by simpa [hl] using hpl, fun o ho => ?_⟩
      by_cases hom : o = m
      · subst hom
        exact hrow
      · rw [hother o hom, List.getElem?_set, if_neg (Ne.symm hom)]
        exact hrows o (by omega))
  rw [hcount] at hrows
  refine ⟨pyr, ?_, hl, hrows⟩
  unfold build_dog_pyr
  simp only [hmakeN, hM, Option.bind_eq_bind, Option.some_bind]
  exact hpyr

/-! ### C12: shape and entries of the DoG pyramid -/

/-- C12.  For a Gaussian pyramid of `octvs` rows of `intvls + 3` images, the
images of one row having the same bounds (of non-negative width and height),
`build_dog_pyr` does not fail (so it never indexes `gauss_pyr` out of range) and
returns `octvs` rows of `intvls + 2` images; the entry `[o][i]` is
`SubstractImage(gauss_pyr[o][i+1], gauss_pyr[o][i])`, the two reads of
`gauss_pyr` being at `[o][i+1]` and `[o][i]` with `0 ≤ o < octvs` and
`0 ≤ i < intvls + 2`. -/
theorem build_dog_pyr_shape_entries (gauss_pyr : List (List (Option Image)))
    (octvs intvls : Int) (hi : 0 ≤ intvls + 2)
    (hlen : (gauss_pyr.length : Int) = octvs)
    (hrows : ∀ row ∈ gauss_pyr, (row.length : Int) = intvls + 3 ∧
      ∃ bnd : Rectangle, 0 ≤ bnd.Dx ∧ 0 ≤ bnd.Dy ∧
        ∀ e ∈ row, ∃ img : Image, e = some img ∧ img.Bounds = bnd) :
    ∃ pyr, build_dog_pyr gauss_pyr octvs intvls = some pyr ∧
      (pyr.length : Int) = octvs ∧
      (∀ row ∈ pyr, (row.length : Int) = intvls + 2) ∧
      ∀ o i : Int, 0 ≤ o → o < octvs → 0 ≤ i → i < intvls + 2 →
        DogEntryOk gauss_pyr o i (get2 pyr o i) := by
  obtain ⟨M, hM⟩ := Int.eq_ofNat_of_zero_le hi
  subst hlen
  have hcalls : ∀ o i : Nat, o < gauss_pyr.length → i < M → ∃ a b d,
      get2 gauss_pyr (o : Int) ((i : Int) + 1) = some (some a) ∧
      get2 gauss_pyr (o : Int) (i : Int) = some (some b) ∧ SubstractImage a b = some d := by
    intro o i ho hiM
    have hmem : gauss_pyr[o] ∈ gauss_pyr := List.getElem_mem ho
    obtain ⟨hrl, bnd, hx, hy, hall⟩ := hrows _ hmem
    have hl : gauss_pyr[o].length = M + 1 := by omega
    obtain ⟨a, ha, hab⟩ := hall (gauss_pyr[o])[i + 1] (List.getElem_mem (by omega))
    obtain ⟨b, hb, hbb⟩ := hall (gauss_pyr[o])[i] (List.getElem_mem (by omega))
    obtain ⟨d, hd, -⟩ := SubstractImage_spec a b (by rw [hab, hbb]) (by rw [hab]; exact hx)
      (by rw [hab]; exact hy)
    refine ⟨a, b, d, ?_, ?_, hd⟩
    · rw [get2_of_eq gauss_pyr _ _ o (i + 1) _ rfl (by push_cast; ring)
        (List.getElem?_eq_getElem ho), List.getElem?_eq_getElem (by omega), ha]
    · rw [get2_of_eq gauss_pyr _ _ o i _ rfl rfl (List.getElem?_eq_getElem ho),
        List.getElem?_eq_getElem (by omega), hb]
  obtain ⟨pyr, hpyr, hl, hspec⟩ :=
    build_dog_pyr_spec gauss_pyr gauss_pyr.length M intvls hM hcalls
  refine ⟨pyr, hpyr, by rw [hl], fun row hrow => ?_, fun o i ho0 hoN hi0 hiM => ?_⟩
  · obtain ⟨o, hoN, rfl⟩ := List.mem_iff_getElem.mp hrow
    obtain ⟨row, h1, h2, -⟩ := hspec o (by omega)
    rw [List.getElem?_eq_getElem hoN] at h1
    rw [Option.some.inj h1, h2, hM]
  · obtain ⟨a, rfl⟩ := Int.eq_ofNat_of_zero_le ho0
    obtain ⟨b, rfl⟩ := Int.eq_ofNat_of_zero_le hi0
    obtain ⟨row, h1, -, h3⟩ := hspec a (by omega)
    rw [get2_of_eq pyr _ _ a b row rfl rfl h1]
    exact h3 b (by omega)

/-- Instance of C12 on `gaussOctave3` (`octvs = 1`, `intvls = 0`). -/
theorem build_dog_pyr_shape_entries_witness :
    ∃ pyr, build_dog_pyr gaussOctave3 1 0 = some pyr ∧
      (pyr.length : Int) = 1 ∧
      (∀ row ∈ pyr, (row.length : Int) = 0 + 2) ∧
      ∀ o i : Int, 0 ≤ o → o < 1 → 0 ≤ i → i < 0 + 2 →
        DogEntryOk gaussOctave3 o i (get2 pyr o i) :=
  build_dog_pyr_shape_entries gaussOctave3 1 0 (by norm_num) (by decide) (by
    intro row hrow
    simp only [gaussOctave3, List.mem_singleton] at hrow
    subst hrow
    refine ⟨by decide, rect0 2 2, by decide, by decide, fun e he => ?_⟩
    simp only [List.mem_cons, List.mem_singleton, List.not_mem_nil, or_false] at he
    rcases he with rfl | rfl | rfl <;> exact ⟨_, rfl, rfl⟩)

/-! ### C20: the samples of `SubstractImage` and of the DoG pyramid -/

theorem sliceSet_some {α : Type} (xs ys : List α) (i : Int) (v : α)
    (h : sliceSet xs i v = some ys) : ys = xs.set i.toNat v := by
  unfold sliceSet at h
  split at h
  · exact (Option.some.inj h).symm
  · exact absurd h (by simp)

theorem set2_some {α : Type} (pyr pyr1 : List (List α)) (r i : Int) (v : α)
    (h : set2 pyr r i v = some pyr1) :
    ∃ row, row ∈ pyr ∧ pyr1 = pyr.set r.toNat (row.set i.toNat v) := by
  unfold set2 at h
  cases hrow : sliceGet pyr r with
  | none => simp [hrow] at h
  | some row =>
    cases hset : sliceSet row i v with
    | none => simp [hrow, hset] at h
    | some row1 =>
      simp only [hrow, hset, Option.bind_eq_bind, Option.some_bind] at h
      refine ⟨row, sliceGet_mem pyr r row hrow, ?_⟩
      rw [sliceSet_some pyr pyr1 r row1 h, sliceSet_some row row1 i v hset]

theorem dogStep_preserves (gauss_pyr : List (List (Option Image))) (o i : Int)
    (p p1 : List (List (Option SiftImage))) (h : dogStep gauss_pyr o i p = some p1)
    (hp : SamplesInByteRange p) : SamplesInByteRange p1 := by
  unfold dogStep at h
  cases h1 : get2 gauss_pyr o (i + 1) with
  | none => simp [h1] at h
  | some e1 =>
    cases e1 with
    | none => simp [h1] at h
    | some a =>
      cases h2 : get2 gauss_pyr o i with
      | none => simp [h1, h2] at h
      | some e2 =>
        cases e2 with
        | none => simp [h1, h2] at h
        | some b =>
          cases h3 : SubstractImage a b with
          | none => simp [h1, h2, h3] at h
          | some d =>
            simp only [h1, h2, h3, Option.bind_eq_bind, Option.some_bind] at h
            obtain ⟨row, hrow, rfl⟩ := set2_some p p1 o i (some d) h
            intro row1 hrow1 d1 hd1 v hv
            rcases List.mem_or_eq_of_mem_set hrow1 with hmem | rfl
            · exact hp row1 hmem d1 hd1 v hv
            · rcases List.mem_or_eq_of_mem_set hd1 with hmem | heq
              · exact hp row hrow d1 hmem v hv
              · rw [Option.some.inj heq] at hv
                exact (SubstractImage_result a b d h3).2.2 v hv

/-- Whenever `build_dog_pyr` returns a pyramid, every sample of every image of
it lies in `[0, 255]`. -/
theorem build_dog_pyr_byte_range (gauss_pyr : List (List (Option Image)))
    (octvs intvls : Int) (pyr : List (List (Option SiftImage)))
    (h : build_dog_pyr gauss_pyr octvs intvls = some pyr) : SamplesInByteRange pyr := by
  unfold build_dog_pyr at h
  cases hm : make octvs ([] : List (Option SiftImage)) with
  | none => simp [hm] at h
  | some pyr0 =>
    simp only [hm, Option.bind_eq_bind, Option.some_bind] at h
    have h0 : SamplesInByteRange pyr0 := by
      unfold make at hm
      split at hm
      · exact absurd hm (by simp)
      · rw [← Option.some.inj hm]
        intro row hrow d hd
        rw [List.eq_of_mem_replicate hrow] at hd
        exact absurd hd (List.not_mem_nil _)
    refine forLoop_preserves SamplesInByteRange 0 octvs _ ?_ pyr0 pyr h0 h
    intro o p p1 hbody hp
    cases hf : make (intvls + 2) (none : Option SiftImage) with
    | none => simp [hf] at hbody
    | some fresh =>
      cases hs : sliceSet p o fresh with
      | none => simp [hf, hs] at hbody
      | some pyr1 =>
        simp only [hf, hs, Option.some_bind] at hbody
        have h1 : SamplesInByteRange pyr1 := by
          rw [sliceSet_some p pyr1 o fresh hs]
          intro row hrow d hd
          rcases List.mem_or_eq_of_mem_set hrow with hmem | rfl
          · exact hp row hmem d hd
          · unfold make at hf
            split at hf
            · exact absurd hf (by simp)
            · rw [← Option.some.inj hf] at hd
              exact absurd (List.eq_of_mem_replicate hd) (by simp)
        exact forLoop_preserves SamplesInByteRange 0 (intvls + 2) _
          (fun i q q1 hq hqP => dogStep_preserves gauss_pyr o i q q1 hq hqP) pyr1 p1 h1 hbody

theorem rgbaSample_at (src : Image) (w x y ch : Nat) (hw : src.Bounds.Dx.toNat = w)
    (hx : x < w) (hch : ch < 4) :
    rgbaSample src (4 * (y * w + x) + ch)
      = src.At (src.Bounds.Min.X + (x : Int)) (src.Bounds.Min.Y + (y : Int)) ch % 256 := by
  unfold rgbaSample
  rw [hw]
  have h1 : (4 * (y * w + x) + ch) / 4 = y * w + x := by omega
  have h2 : (y * w + x) % w = x := by
    rw [Nat.add_comm, Nat.add_mul_mod_self_right, Nat.mod_eq_of_lt hx]
  have h3 : (4 * (y * w + x) + ch) / (4 * w) = y := by
    rw [← Nat.div_div_eq_div_mul, h1, Nat.add_comm, Nat.add_mul_div_right _ _ (by omega),
      Nat.div_eq_of_lt hx, Nat.zero_add]
  have h4 : (4 * (y * w + x) + ch) % 4 = ch := by omega
  rw [h1, h2, h3, h4]

/-- C20.  For two images with identical bounds, `SubstractImage` returns an
image whose sample for the pixel `(x, y)` of the bounds and the channel `ch`,
stored at `y * Stride + x * 4 + ch`, is `(a - b) mod 256`, `a` and `b` being the
8-bit samples of `src1` and `src2`.  Every sample of every image of a pyramid
that `build_dog_pyr` returns lies in `[0, 255]`. -/
theorem SubstractImage_mod_256 :
    (∀ (src1 src2 : Image), src2.Bounds = src1.Bounds →
      0 ≤ src1.Bounds.Dx → 0 ≤ src1.Bounds.Dy →
      ∃ d, SubstractImage src1 src2 = some d ∧
        ∀ (x y : Int) (ch : Nat), 0 ≤ x → x < src1.Bounds.Dx → 0 ≤ y →
          y < src1.Bounds.Dy → ch < 4 →
          sliceGet d.Pix (y * d.Stride + x * 4 + (ch : Int)) = some
            ((((src1.At (src1.Bounds.Min.X + x) (src1.Bounds.Min.Y + y) ch % 256 : Nat) : Int)
              - ((src2.At (src1.Bounds.Min.X + x) (src1.Bounds.Min.Y + y) ch % 256 : Nat) : Int))
              % 256)) ∧
    (∀ (gauss_pyr : List (List (Option Image))) (octvs intvls : Int)
        (pyr : List (List (Option SiftImage))),
      build_dog_pyr gauss_pyr octvs intvls = some pyr → SamplesInByteRange pyr) := by
  refine ⟨fun src1 src2 hb hdx hdy => ?_, build_dog_pyr_byte_range⟩
  obtain ⟨d, hd, hstride, -, -, hval⟩ := SubstractImage_spec src1 src2 hb hdx hdy
  refine ⟨d, hd, fun x y ch hx0 hxw hy0 hyh hch => ?_⟩
  obtain ⟨w, hw⟩ := Int.eq_ofNat_of_zero_le hdx
  obtain ⟨h, hh⟩ := Int.eq_ofNat_of_zero_le hdy
  obtain ⟨x1, rfl⟩ := Int.eq_ofNat_of_zero_le hx0
  obtain ⟨y1, rfl⟩ := Int.eq_ofNat_of_zero_le hy0
  have hw1 : src1.Bounds.Dx.toNat = w := by omega
  have hh1 : src1.Bounds.Dy.toNat = h := by omega
  have hxw1 : x1 < w := by omega
  have hyh1 : y1 < h := by omega
  have hrow : y1 * w + w ≤ h * w := by
    have := Nat.mul_le_mul_right w (show y1 + 1 ≤ h by omega)
    rwa [Nat.add_mul, Nat.one_mul] at this
  have hL : 4 * w * h = 4 * (h * w) := by ring
  have hn : 4 * (y1 * w + x1) + ch < 4 * src1.Bounds.Dx.toNat * src1.Bounds.Dy.toNat := by
    rw [hw1, hh1]
    omega
  rw [sliceGet_of_eq d.Pix _ (4 * (y1 * w + x1) + ch)
    (by rw [hstride, hw]; push_cast; ring), hval _ hn,
    rgbaSample_at src1 w x1 y1 ch hw1 hxw1 hch,
    rgbaSample_at src2 w x1 y1 ch (by rw [hb]; exact hw1) hxw1 hch, hb]
  congr 1
  unfold uint8Sub
  omega

/-- Instance of C20: two 2 x 2 images of constant samples 5 and 9, and the DoG
pyramid of `gaussOctave3`. -/
theorem SubstractImage_mod_256_witness :
    (∃ d, SubstractImage (constImage 2 2 5) (constImage 2 2 9) = some d ∧
        ∀ (x y : Int) (ch : Nat), 0 ≤ x → x < (constImage 2 2 5).Bounds.Dx → 0 ≤ y →
          y < (constImage 2 2 5).Bounds.Dy → ch < 4 →
          sliceGet d.Pix (y * d.Stride + x * 4 + (ch : Int)) = some
            (((((constImage 2 2 5).At ((constImage 2 2 5).Bounds.Min.X + x)
                ((constImage 2 2 5).Bounds.Min.Y + y) ch % 256 : Nat) : Int)
              - (((constImage 2 2 9).At ((constImage 2 2 5).Bounds.Min.X + x)
                ((constImage 2 2 5).Bounds.Min.Y + y) ch % 256 : Nat) : Int))
              % 256)) ∧
    SamplesInByteRange
      [[some ⟨List.replicate 16 252, 8, rect0 2 2⟩, some ⟨List.replicate 16 2, 8, rect0 2 2⟩]] :=
  ⟨SubstractImage_mod_256.1 (constImage 2 2 5) (constImage 2 2 9) rfl (by decide) (by decide),
    SubstractImage_mod_256.2 gaussOctave3 1 0 _ (by decide)⟩

/-! ### C21: the bicubic kernel is a partition of unity -/

theorem cubic_of_le_one (a : ℝ) (h0 : 0 ≤ a) (h1 : a ≤ 1) :
    cubic a = a * a * (1.5 * a - 2.5) + 1 := by
  unfold cubic
  simp only [abs_of_nonneg h0, if_pos h1]
  norm_num

theorem cubic_of_le_two (a : ℝ) (h1 : 1 ≤ a) (h2 : a ≤ 2) :
    cubic a = a * (a * (2.5 - 0.5 * a) - 4) + 2 := by
  unfold cubic
  simp only [abs_of_nonneg (le_trans zero_le_one h1)]
  by_cases h : a ≤ 1
  · have ha : a = 1 := le_antisymm h h1
    subst ha
    norm_num
  · simp only [if_neg h, if_pos h2]
    norm_num

theorem cubic_neg (x : ℝ) : cubic (-x) = cubic x := by
  unfold cubic
  simp only [abs_neg]

/-- C21.  Over the reals, for every `u` with `0 ≤ u < 1` the four weights
`cubic(u - m)`, `m = -1, 0, 1, 2`, that `BicubicInterpolation.Smooth` uses sum
to 1: `cubic(u+1) + cubic(u) + cubic(u-1) + cubic(u-2) = 1`.  Moreover
`cubic(0) = 1`, `cubic(1) = cubic(2) = 0` and `cubic(x) = cubic(-x)`. -/
theorem cubic_partition_of_unity :
    (∀ u : ℝ, 0 ≤ u → u < 1 →
      cubic (u + 1) + cubic u + cubic (u - 1) + cubic (u - 2) = 1 ∧
      (cubicTaps u).sum = 1) ∧
    cubic (0 : ℝ) = 1 ∧ cubic (1 : ℝ) = 0 ∧ cubic (2 : ℝ) = 0 ∧
    ∀ x : ℝ, cubic x = cubic (-x) := by
  have hsum : ∀ u : ℝ, 0 ≤ u → u < 1 →
      cubic (u + 1) + cubic u + cubic (u - 1) + cubic (u - 2) = 1 := by
    intro u h0 h1
    have e1 : cubic (u + 1) = (u + 1) * ((u + 1) * (2.5 - 0.5 * (u + 1)) - 4) + 2 :=
      cubic_of_le_two (u + 1) (by linarith) (by linarith)
    have e2 : cubic u = u * u * (1.5 * u - 2.5) + 1 := cubic_of_le_one u h0 h1.le
    have e3 : cubic (u - 1) = (1 - u) * (1 - u) * (1.5 * (1 - u) - 2.5) + 1 := by
      rw [← cubic_neg, neg_sub]
      exact cubic_of_le_one (1 - u) (by linarith) (by linarith)
    have e4 : cubic (u - 2) = (2 - u) * ((2 - u) * (2.5 - 0.5 * (2 - u)) - 4) + 2 := by
      rw [← cubic_neg, neg_sub]
      exact cubic_of_le_two (2 - u) (by linarith) (by linarith)
    rw [e1, e2, e3, e4]
    ring
  refine ⟨fun u h0 h1 => ⟨hsum u h0 h1, ?_⟩, ?_, ?_, ?_, fun x => (cubic_neg x).symm⟩
  · have := hsum u h0 h1
    simp only [cubicTaps, List.map_cons, List.map_nil, List.sum_cons, List.sum_nil]
    push_cast
    rw [sub_neg_eq_add, sub_zero, add_zero]
    linarith
  · rw [cubic_of_le_one 0 le_rfl zero_le_one]
    norm_num
  · rw [cubic_of_le_one 1 zero_le_one le_rfl]
    norm_num
  · rw [cubic_of_le_two 2 (by norm_num) le_rfl]
    norm_num

/-- Instance of C21 at `u = 1/2`. -/
theorem cubic_partition_of_unity_witness :
    cubic ((1 / 2 : ℝ) + 1) + cubic (1 / 2 : ℝ) + cubic ((1 / 2 : ℝ) - 1)
        + cubic ((1 / 2 : ℝ) - 2) = 1 ∧
    (cubicTaps (1 / 2 : ℝ)).sum = 1 :=
  cubic_partition_of_unity.1 (1 / 2) (by norm_num) (by norm_num)

end GoSift
